import Mathlib

/-!
# A shallow embedding of `loader.c`

`loader.c` is a user-space loader for 32-bit ELF executables: it maps the file,
validates the identification block, walks the program-header table twice (once
to report, once to map every `PT_LOAD` segment with `mmap`), releases the
metadata mapping and hands control to an external `startup` stub.

Conventions of the embedding.

* Machine words are natural numbers; 32-bit unsigned arithmetic is written with
  an explicit `% 2 ^ 32`.
* The numeric values of the constants of `<elf.h>`, `<sys/mman.h>` and
  `<fcntl.h>` are those of Linux on i386 (the program casts pointers to
  `unsigned int`, so it is a 32-bit little-endian build).
* A C function with side effects is a function `World → Result α`.  The world
  records the calls made to the C library and the kernel (`trace`), the two
  `static` variables of the program, and the address space (`mem`).
* What the kernel and the external stub answer is read from an `Env`.
* The metadata mapping is read through an immutable `Image`: the header and
  the descriptors of a walk are those the buffer held when the walk began.
  That is what the C loop reads through its pointers as long as nothing is
  stored into, or mapped over, the buffer during the walk; the properties of
  the walk carry this condition as a hypothesis (`Shows`, `Keeps`, `avoids`).
  A read outside the buffer is an invalid memory access.
* A store to a page mapped without `PROT_WRITE`, or to an unmapped address, is
  an invalid memory access (the kernel kills the process).
* `print_phdr`, which the program never calls, is left out.
-/

namespace Loader

/-! ## Constants of the system headers -/

/-- Segment permission bit "execute" of `<elf.h>`. -/
def PF_X : Nat := 1
/-- Segment permission bit "write" of `<elf.h>`. -/
def PF_W : Nat := 2
/-- Segment permission bit "read" of `<elf.h>`. -/
def PF_R : Nat := 4

def PT_NULL : Nat := 0
def PT_LOAD : Nat := 1
def PT_DYNAMIC : Nat := 2
def PT_INTERP : Nat := 3
def PT_NOTE : Nat := 4
def PT_PHDR : Nat := 6
def PT_TLS : Nat := 7

/-- Page protection bits of `<sys/mman.h>`. -/
def PROT_READ : Nat := 1
def PROT_WRITE : Nat := 2
def PROT_EXEC : Nat := 4

/-- Mapping flags of `<sys/mman.h>`. -/
def MAP_SHARED : Nat := 1
def MAP_PRIVATE : Nat := 2
def MAP_FIXED : Nat := 16
def MAP_ANONYMOUS : Nat := 32
/-- The pointer `(void *) -1` on a 32-bit target. -/
def MAP_FAILED : Nat := 0xffffffff

def O_RDONLY : Nat := 0
def SEEK_SET : Nat := 0
def SEEK_END : Nat := 2

/-- Index of the class byte in `e_ident`. -/
def EI_CLASS : Nat := 4
def ELFCLASS32 : Nat := 1
/-- Length of the magic string. -/
def SELFMAG : Nat := 4
/-- The string literal `"\177ELF"`, as an array of bytes (with its terminator). -/
def ELFMAG : Nat → Nat := fun i => [0x7f, 'E'.toNat, 'L'.toNat, 'F'.toNat, 0].getD i 0

/-- Size of the host page, as hard-coded in the masks of `load_phdr`. -/
def PAGE_SIZE : Nat := 4096

/-! ## The ELF structures -/

/-- The C structure `Elf32_Ehdr`; `e_ident i` is the byte `e_ident[i]`. -/
structure Elf32_Ehdr where
  e_ident : Nat → Nat
  e_type : Nat
  e_machine : Nat
  e_version : Nat
  e_entry : Nat
  e_phoff : Nat
  e_shoff : Nat
  e_flags : Nat
  e_ehsize : Nat
  e_phentsize : Nat
  e_phnum : Nat
  e_shentsize : Nat
  e_shnum : Nat
  e_shstrndx : Nat

/-- The C structure `Elf32_Phdr` (32 bytes). -/
structure Elf32_Phdr where
  p_type : Nat
  p_offset : Nat
  p_vaddr : Nat
  p_paddr : Nat
  p_filesz : Nat
  p_memsz : Nat
  p_flags : Nat
  p_align : Nat
deriving DecidableEq, Repr

/-- Every field of the descriptor is a 32-bit word. -/
def Elf32_Phdr.wf (p : Elf32_Phdr) : Prop :=
  p.p_type < 2 ^ 32 ∧ p.p_offset < 2 ^ 32 ∧ p.p_vaddr < 2 ^ 32 ∧ p.p_paddr < 2 ^ 32 ∧
  p.p_filesz < 2 ^ 32 ∧ p.p_memsz < 2 ^ 32 ∧ p.p_flags < 2 ^ 32 ∧ p.p_align < 2 ^ 32

instance (p : Elf32_Phdr) : Decidable p.wf := by
  unfold Elf32_Phdr.wf; infer_instance

/-- Size in bytes of `Elf32_Ehdr`. -/
def EHDR_SIZE : Nat := 52
/-- Size in bytes of `Elf32_Phdr`. -/
def PHDR_SIZE : Nat := 32

/-- A readable buffer of `size` bytes; `byte i` is its content at offset `i`. -/
structure Image where
  size : Nat
  byte : Nat → Nat

def rd8 (img : Image) (off : Nat) : Nat := img.byte off % 256

/-- A 16-bit little-endian field. -/
def rd16 (img : Image) (off : Nat) : Nat := rd8 img off + 256 * rd8 img (off + 1)

/-- A 32-bit little-endian field. -/
def rd32 (img : Image) (off : Nat) : Nat := rd16 img off + 65536 * rd16 img (off + 2)

/-- The header seen through `(Elf32_Ehdr *) map_start`; `none` when the buffer
is too short to hold one (the access would be invalid). -/
def read_ehdr (img : Image) : Option Elf32_Ehdr :=
  if EHDR_SIZE ≤ img.size then
    some { e_ident := fun i => if i < 16 then rd8 img i else 0
           e_type := rd16 img 16
           e_machine := rd16 img 18
           e_version := rd32 img 20
           e_entry := rd32 img 24
           e_phoff := rd32 img 28
           e_shoff := rd32 img 32
           e_flags := rd32 img 36
           e_ehsize := rd16 img 40
           e_phentsize := rd16 img 42
           e_phnum := rd16 img 44
           e_shentsize := rd16 img 46
           e_shnum := rd16 img 48
           e_shstrndx := rd16 img 50 }
  else none

/-- The descriptor seen through an `Elf32_Phdr *` that points `off` bytes into
the buffer; `none` when it does not lie inside the buffer. -/
def read_phdr (img : Image) (off : Nat) : Option Elf32_Phdr :=
  if off + PHDR_SIZE ≤ img.size then
    some { p_type := rd32 img off
           p_offset := rd32 img (off + 4)
           p_vaddr := rd32 img (off + 8)
           p_paddr := rd32 img (off + 12)
           p_filesz := rd32 img (off + 16)
           p_memsz := rd32 img (off + 20)
           p_flags := rd32 img (off + 24)
           p_align := rd32 img (off + 28) }
  else none

/-! ## Pure functions of the program -/

/-- Convert ELF `p_flags` to `mmap` protection flags. -/
def get_prot_flags (flags : Nat) : Nat :=
  let prot := 0
  let prot := if flags &&& PF_R ≠ 0 then prot ||| PROT_READ else prot
  let prot := if flags &&& PF_W ≠ 0 then prot ||| PROT_WRITE else prot
  let prot := if flags &&& PF_X ≠ 0 then prot ||| PROT_EXEC else prot
  prot

/-- Convert flag bits into a readable R/W/E string. -/
def flag_str (flags : Nat) : String :=
  String.mk [if flags &&& PF_R ≠ 0 then 'R' else ' ',
             if flags &&& PF_W ≠ 0 then 'W' else ' ',
             if flags &&& PF_X ≠ 0 then 'E' else ' ']

/-- Convert segment type to a human-readable string. -/
def type_str (type : Nat) : String :=
  if type = PT_NULL then "NULL"
  else if type = PT_LOAD then "LOAD"
  else if type = PT_DYNAMIC then "DYNAMIC"
  else if type = PT_INTERP then "INTERP"
  else if type = PT_NOTE then "NOTE"
  else if type = PT_PHDR then "PHDR"
  else if type = PT_TLS then "TLS"
  else "UNKNOWN"

/-- The C library's `memcmp` on the first `n` bytes of two arrays: zero when
they agree, otherwise the difference of the first pair of bytes that differ. -/
def memcmp (s1 s2 : Nat → Nat) : Nat → Int
  | 0 => 0
  | n + 1 =>
    if s1 0 = s2 0 then memcmp (fun i => s1 (i + 1)) (fun i => s2 (i + 1)) n
    else (s1 0 : Int) - (s2 0 : Int)

/-- Validate ELF32 format and architecture; the C `int` result of `&&`. -/
def validate_elf32 (hdr : Elf32_Ehdr) : Int :=
  if memcmp hdr.e_ident ELFMAG SELFMAG = 0 ∧ hdr.e_ident EI_CLASS = ELFCLASS32 then 1 else 0

/-! ## The world: library calls, static variables, address space -/

/-- One argument of a `printf` call. -/
inductive Arg where
  | int (v : Int)
  | str (s : String)
deriving DecidableEq, Repr

/-- The six arguments of an `mmap` call. -/
structure MmapReq where
  addr : Nat
  length : Nat
  prot : Nat
  flags : Nat
  fd : Int
  offset : Nat
deriving DecidableEq, Repr

/-- A call made by the program to the C library, the kernel or the external
stub, with its arguments and, where the program uses it, its result. -/
inductive Event where
  | printf (fmt : String) (args : List Arg)
  | perror (msg : String)
  | sys_open (path : String) (flags : Nat) (ret : Int)
  | lseek (fd : Int) (off : Int) (whence : Nat) (ret : Int)
  | close (fd : Int)
  | mmap (req : MmapReq) (ret : Nat)
  | munmap (addr : Nat) (length : Nat)
  | memset (s : Nat) (c : Nat) (n : Nat)
  | startup (argc : Int) (argv : List String) (entry : Nat)
  | exit (status : Int)
deriving DecidableEq, Repr

/-- One mapped byte of the address space: the protection of its page and its
value. -/
structure Cell where
  prot : Nat
  val : Nat
deriving DecidableEq, Repr

/-- The address space: `none` is an unmapped address. -/
abbrev Memory := Nat → Option Cell

/-- The state the program runs in. -/
structure World where
  /-- The calls made so far, oldest first. -/
  trace : List Event
  /-- The variable `static bool first` of `print_phdr_detailed`. -/
  first : Bool
  /-- The variable `static void *entry_point`. -/
  entry_point : Nat
  /-- The address space of the process. -/
  mem : Memory

/-- The state at program start. -/
def World.init : World :=
  { trace := [], first := true, entry_point := 0, mem := fun _ => none }

/-- What the surroundings of the program answer. -/
structure Env where
  /-- Result of `open(path, O_RDONLY)`: a descriptor or `-1`. -/
  sys_open : String → Int
  /-- Result of `lseek(fd, off, whence)`. -/
  lseek : Int → Int → Nat → Int
  /-- Result of an `mmap` request without `MAP_FIXED`, given the calls made so
  far: the address chosen by the kernel, or `MAP_FAILED`. -/
  mmap_any : List Event → MmapReq → Nat
  /-- Whether the kernel grants an `mmap` request with `MAP_FIXED`, given the
  calls made so far. -/
  mmap_fixed : List Event → MmapReq → Bool
  /-- The byte at an offset of the file behind a descriptor, as a mapping of
  the file shows it (zero past the end of the file). -/
  file_byte : Int → Nat → Nat
  /-- Whether the external `startup` stub comes back to its caller. -/
  startup_returns : Bool

/-- How a computation ends. -/
inductive Result (α : Type) where
  /-- It returned `val` to its caller. -/
  | ok (val : α) (w : World)
  /-- It ended the process through `exit(code)`. -/
  | exit (code : Int) (w : World)
  /-- It made an invalid memory access (the process is killed by a signal). -/
  | fault (w : World)
  /-- It handed control to the loaded image, which never came back. -/
  | jumped (w : World)

/-- The world a computation ends in. -/
def Result.world {α : Type} : Result α → World
  | .ok _ w => w
  | .exit _ w => w
  | .fault w => w
  | .jumped w => w

/-- The status the process exits with, when the computation is the run of
`main`: the value `main` returns or the argument of `exit`. -/
def Result.exit_status : Result Int → Option Int
  | .ok v _ => some v
  | .exit c _ => some c
  | .fault _ => none
  | .jumped _ => none

/-- A C function with side effects. -/
def M (α : Type) : Type := World → Result α

def M.pure {α : Type} (a : α) : M α := fun w => .ok a w

def M.bind {α β : Type} (m : M α) (f : α → M β) : M β := fun w =>
  match m w with
  | .ok a w1 => f a w1
  | .exit c w1 => .exit c w1
  | .fault w1 => .fault w1
  | .jumped w1 => .jumped w1

instance : Monad M where
  pure := M.pure
  bind := M.bind

/-- Record a call. -/
def emit (e : Event) : M Unit := fun w => .ok () { w with trace := w.trace ++ [e] }

def printf (fmt : String) (args : List Arg) : M Unit := emit (.printf fmt args)

def perror (msg : String) : M Unit := emit (.perror msg)

/-- The C library's `exit`: it does not return. -/
def exit {α : Type} (status : Int) : M α := fun w =>
  .exit status { w with trace := w.trace ++ [.exit status] }

/-- An invalid memory access. -/
def fault {α : Type} : M α := fun w => .fault w

def sys_open (env : Env) (path : String) (flags : Nat) : M Int := fun w =>
  .ok (env.sys_open path)
    { w with trace := w.trace ++ [.sys_open path flags (env.sys_open path)] }

def lseek (env : Env) (fd : Int) (off : Int) (whence : Nat) : M Int := fun w =>
  .ok (env.lseek fd off whence)
    { w with trace := w.trace ++ [.lseek fd off whence (env.lseek fd off whence)] }

def close (fd : Int) : M Int := fun w =>
  .ok 0 { w with trace := w.trace ++ [.close fd] }

/-- Round a length up to whole pages. -/
def page_up (n : Nat) : Nat := (n + (PAGE_SIZE - 1)) / PAGE_SIZE * PAGE_SIZE

/-- The address space after a successful file mapping at `addr`: the pages of
the request show the file from `req.offset` on, with protection `req.prot`. -/
def map_pages (env : Env) (req : MmapReq) (addr : Nat) (mem : Memory) : Memory := fun a =>
  if addr ≤ a ∧ a < addr + page_up req.length ∧ a < 2 ^ 32 then
    some { prot := req.prot, val := env.file_byte req.fd (req.offset + (a - addr)) % 256 }
  else mem a

/-- The kernel's `mmap`.  A fixed request is granted at exactly `req.addr` or
refused; the result is the address of the mapping or `MAP_FAILED`. -/
def mmap (env : Env) (req : MmapReq) : M Nat := fun w =>
  let ret :=
    if req.flags &&& MAP_FIXED ≠ 0 then
      (if env.mmap_fixed w.trace req then req.addr else MAP_FAILED)
    else env.mmap_any w.trace req
  .ok ret
    { w with
      trace := w.trace ++ [.mmap req ret]
      mem := if ret = MAP_FAILED then w.mem else map_pages env req ret w.mem }

/-- The kernel's `munmap`. -/
def munmap (addr : Nat) (length : Nat) : M Int := fun w =>
  .ok 0
    { w with
      trace := w.trace ++ [.munmap addr length]
      mem := fun a => if addr ≤ a ∧ a < addr + page_up length then none else w.mem a }

/-- Store `n` bytes `c` from address `s` upwards.  A store to an address that is
not mapped, or whose page lacks `PROT_WRITE`, stops the run; the result is the
memory reached and whether all stores were done. -/
def memset_bytes (c : Nat) : Nat → Nat → Memory → Bool × Memory
  | _, 0, mem => (true, mem)
  | s, n + 1, mem =>
    match mem s with
    | none => (false, mem)
    | some cell =>
      if cell.prot &&& PROT_WRITE ≠ 0 then
        memset_bytes c (s + 1) n
          (fun a => if a = s then some { cell with val := c % 256 } else mem a)
      else (false, mem)

/-- The C library's `memset`. -/
def memset (s : Nat) (c : Nat) (n : Nat) : M Unit := fun w =>
  let r := memset_bytes c s n w.mem
  let w1 : World := { w with trace := w.trace ++ [.memset s c n], mem := r.2 }
  if r.1 then .ok () w1 else .fault w1

/-- The external stub `startup`: it jumps to `entry` and is not expected to
come back. -/
def startup (env : Env) (argc : Int) (argv : List String) (entry : Nat) : M Unit := fun w =>
  let w1 : World := { w with trace := w.trace ++ [.startup argc argv entry] }
  if env.startup_returns then .ok () w1 else .jumped w1

/-! ## The stateful functions of the program -/

/-- Print human-readable description of protection flags. -/
def print_mmap_flags (prot_flags : Nat) : M Unit := do
  printf "  -> mmap mapping flags: MAP_PRIVATE | MAP_FIXED\n" []
  printf "  -> mmap protection flags: " []
  if prot_flags &&& PROT_READ ≠ 0 then printf "PROT_READ " []
  if prot_flags &&& PROT_WRITE ≠ 0 then printf "PROT_WRITE " []
  if prot_flags &&& PROT_EXEC ≠ 0 then printf "PROT_EXEC " []
  printf "\n" []

/-- Print full details for each program header. -/
def print_phdr_detailed (phdr : Elf32_Phdr) (_fd : Int) : M Unit := do
  (fun w =>
    if w.first then
      (do printf "Type           Offset   VirtAddr   PhysAddr   FileSiz MemSiz  Flg Align\n" []
          (fun w1 => .ok () { w1 with first := false })) w
    else .ok () w)
  printf "%-14s 0x%06x 0x%08x 0x%08x 0x%05x 0x%05x %s 0x%x\n"
    [.str (type_str phdr.p_type), .int phdr.p_offset, .int phdr.p_vaddr, .int phdr.p_paddr,
     .int phdr.p_filesz, .int phdr.p_memsz, .str (flag_str phdr.p_flags), .int phdr.p_align]
  if phdr.p_type = PT_LOAD then
    let prot := get_prot_flags phdr.p_flags
    print_mmap_flags prot

/-- Map a loadable segment to memory using `mmap`. -/
def load_phdr (env : Env) (phdr : Elf32_Phdr) (fd : Int) : M Unit :=
  if phdr.p_type ≠ PT_LOAD then
    pure ()
  else do
    let vaddr_page := phdr.p_vaddr &&& 0xfffff000
    let offset_page := phdr.p_offset &&& 0xfffff000
    let pad := phdr.p_vaddr &&& 0xfff
    let prot := get_prot_flags phdr.p_flags
    printf "Loading segment: VirtAddr=0x%08x, Size=0x%05x, Flags=%s\n"
      [.int phdr.p_vaddr, .int phdr.p_memsz, .str (flag_str phdr.p_flags)]
    let segment_ptr ← mmap env
      { addr := vaddr_page
        length := (phdr.p_memsz + pad) % 2 ^ 32
        prot := prot
        flags := MAP_PRIVATE ||| MAP_FIXED
        fd := fd
        offset := offset_page }
    if segment_ptr = MAP_FAILED then
      perror "mmap failed"
      exit 1
    else
      printf "Successfully mapped segment at 0x%08x\n" [.int segment_ptr]
      if phdr.p_memsz > phdr.p_filesz then
        let gap := (phdr.p_vaddr + phdr.p_filesz) % 2 ^ 32
        memset gap 0 (phdr.p_memsz - phdr.p_filesz)

/-- The loop of `foreach_phdr`: `todo` is `e_phnum - i`, the number of
iterations still to run.  The C loop reads `hdr->e_phnum` and `table[i]`
through pointers at every iteration; here both come from the buffer as it was
when the walk began, which is the same as long as the visitor leaves the memory
of the buffer alone. -/
def foreach_phdr_loop (map_start : Image) (table : Nat) (func : Elf32_Phdr → Int → M Unit)
    (arg : Int) : Nat → Nat → M Unit
  | 0, _ => pure ()
  | todo + 1, i =>
    match read_phdr map_start (table + PHDR_SIZE * i) with
    | none => fault
    | some phdr => do
      func phdr arg
      foreach_phdr_loop map_start table func arg todo (i + 1)

/-- Iterate over all program headers and call handler.  The header is read
from the buffer `map_start` points to, as it is when the walk begins. -/
def foreach_phdr (map_start : Image) (func : Elf32_Phdr → Int → M Unit) (arg : Int) : M Int :=
  match read_ehdr map_start with
  | none => fault
  | some hdr =>
    if validate_elf32 hdr = 0 then do
      printf "Error: Invalid ELF32 file\n" []
      pure (-1)
    else do
      let table := hdr.e_phoff
      foreach_phdr_loop map_start table func arg hdr.e_phnum 0
      pure 0

/-- Check command-line arguments. -/
def check_usage (argc : Int) (argv : List String) : M Unit :=
  if argc < 2 then do
    printf "Usage: %s <elf_file> [args...]\n" [.str (argv.getD 0 "(null)")]
    exit 1
  else pure ()

/-- Called if loaded program returns unexpectedly. -/
def unreachable : M Unit := do
  printf "Error: Returned from loaded program\n" []
  exit 1

/-- The metadata mapping of `size` bytes of the file behind `fd`, as a buffer:
whole pages, showing the file from offset zero. -/
def elf_image (env : Env) (fd : Int) (size : Nat) : Image :=
  { size := page_up size, byte := env.file_byte fd }

/-- The program's `main`; `argc` is the length of `argv`. -/
def main (env : Env) (argv : List String) : M Int := do
  let argc : Int := argv.length
  check_usage argc argv
  let file := argv.getD 1 ""
  let fd_in ← sys_open env file O_RDONLY
  if fd_in = -1 then
    perror "Failed to open file"
    pure 1
  else
    let size ← lseek env fd_in 0 SEEK_END
    if size = -1 then
      perror "Failed to get file size"
      let _ ← close fd_in
      pure 1
    else
      let _ ← lseek env fd_in 0 SEEK_SET
      let elf_data ← mmap env
        { addr := 0, length := size.toNat % 2 ^ 32, prot := PROT_READ, flags := MAP_PRIVATE,
          fd := fd_in, offset := 0 }
      if elf_data = MAP_FAILED then
        perror "Failed to map file"
        let _ ← close fd_in
        pure 1
      else
        let map_start := elf_image env fd_in (size.toNat % 2 ^ 32)
        match read_ehdr map_start with
        | none => fault
        | some hdr =>
          (fun w => .ok () { w with entry_point := hdr.e_entry })
          printf "=== ELF File Information ===\n" []
          printf "Number of program headers: %d\n" [.int hdr.e_phnum]
          printf "Program header offset: 0x%08x\n" [.int hdr.e_phoff]
          printf "Entry point: 0x%08x\n\n" [.int hdr.e_entry]
          printf "=== Program Headers ===\n" []
          let _ ← foreach_phdr map_start print_phdr_detailed fd_in
          printf "\n" []
          printf "=== Loading Program ===\n" []
          let _ ← foreach_phdr map_start (load_phdr env) fd_in
          printf "\n" []
          let _ ← munmap elf_data (size.toNat % 2 ^ 32)
          printf "=== Transferring Control ===\n" []
          let entry ← (fun w => Result.ok w.entry_point w)
          printf "Jumping to entry point: 0x%08x\n" [.int entry]
          let child_argc := argc - 1
          let child_argv := argv.drop 1
          startup env child_argc child_argv entry
          unreachable
          let _ ← close fd_in
          pure 1

/-! ## Auxiliary definitions used to state the properties -/

/-- The `mmap` requests among the calls of a trace, oldest first. -/
def mmap_requests : List Event → List MmapReq
  | [] => []
  | .mmap req _ :: es => req :: mmap_requests es
  | _ :: es => mmap_requests es

/-- The zero-fill (`memset`) calls of a trace, oldest first. -/
def memset_calls : List Event → List (Nat × Nat × Nat)
  | [] => []
  | .memset s c n :: es => (s, c, n) :: memset_calls es
  | _ :: es => memset_calls es

/-- The invocations of the control-transfer stub in a trace, oldest first. -/
def startup_calls : List Event → List (Int × List String × Nat)
  | [] => []
  | .startup argc argv entry :: es => (argc, argv, entry) :: startup_calls es
  | _ :: es => startup_calls es

/-- The request `load_phdr` passes to `mmap` for a descriptor. -/
def segment_request (phdr : Elf32_Phdr) (fd : Int) : MmapReq :=
  { addr := phdr.p_vaddr &&& 0xfffff000
    length := (phdr.p_memsz + (phdr.p_vaddr &&& 0xfff)) % 2 ^ 32
    prot := get_prot_flags phdr.p_flags
    flags := MAP_PRIVATE ||| MAP_FIXED
    fd := fd
    offset := phdr.p_offset &&& 0xfffff000 }

/-- The progress line `load_phdr` prints before mapping a descriptor. -/
def loading_line (phdr : Elf32_Phdr) : Event :=
  .printf "Loading segment: VirtAddr=0x%08x, Size=0x%05x, Flags=%s\n"
    [.int phdr.p_vaddr, .int phdr.p_memsz, .str (flag_str phdr.p_flags)]

/-- The progress line `load_phdr` prints after a successful mapping. -/
def mapped_line (ptr : Nat) : Event :=
  .printf "Successfully mapped segment at 0x%08x\n" [.int ptr]

/-- Whether a computation returned to its caller. -/
def Result.is_ok {α : Type} : Result α → Bool
  | .ok _ _ => true
  | _ => false

/-- Whether a computation ended in an invalid memory access. -/
def Result.is_fault {α : Type} : Result α → Bool
  | .fault _ => true
  | _ => false

/-- The descriptor stored at byte offset `off` of a buffer. -/
def phdr_at (img : Image) (off : Nat) : Elf32_Phdr :=
  { p_type := rd32 img off
    p_offset := rd32 img (off + 4)
    p_vaddr := rd32 img (off + 8)
    p_paddr := rd32 img (off + 12)
    p_filesz := rd32 img (off + 16)
    p_memsz := rd32 img (off + 20)
    p_flags := rd32 img (off + 24)
    p_align := rd32 img (off + 28) }

/-- The header stored at the start of a buffer. -/
def ehdr_at (img : Image) : Elf32_Ehdr :=
  { e_ident := fun i => if i < 16 then rd8 img i else 0
    e_type := rd16 img 16
    e_machine := rd16 img 18
    e_version := rd32 img 20
    e_entry := rd32 img 24
    e_phoff := rd32 img 28
    e_shoff := rd32 img 32
    e_flags := rd32 img 36
    e_ehsize := rd16 img 40
    e_phentsize := rd16 img 42
    e_phnum := rd16 img 44
    e_shentsize := rd16 img 46
    e_shnum := rd16 img 48
    e_shstrndx := rd16 img 50 }

/-- Call the visitor once on each descriptor of a list, in the order of the
list, every time with the same auxiliary argument; a call that does not
return ends the walk. -/
def visit_each (func : Elf32_Phdr → Int → M Unit) (arg : Int) : List Elf32_Phdr → M Unit
  | [] => pure ()
  | p :: ps => func p arg >>= fun _ => visit_each func arg ps

/-! ### The run of `main` -/

/-- The descriptor `main` gets from `open`. -/
def main_fd (env : Env) (argv : List String) : Int := env.sys_open (argv.getD 1 "")

/-- The size `main` gets from `lseek`, as the `size_t` it passes on. -/
def main_size (env : Env) (argv : List String) : Nat :=
  (env.lseek (main_fd env argv) 0 SEEK_END).toNat % 2 ^ 32

/-- The request of `main` for the metadata mapping. -/
def main_request (env : Env) (argv : List String) : MmapReq :=
  { addr := 0, length := main_size env argv, prot := PROT_READ, flags := MAP_PRIVATE,
    fd := main_fd env argv, offset := 0 }

/-- The calls of `main` before it requests the metadata mapping. -/
def main_open_trace (env : Env) (argv : List String) : List Event :=
  [.sys_open (argv.getD 1 "") O_RDONLY (main_fd env argv),
   .lseek (main_fd env argv) 0 SEEK_END (env.lseek (main_fd env argv) 0 SEEK_END),
   .lseek (main_fd env argv) 0 SEEK_SET (env.lseek (main_fd env argv) 0 SEEK_SET)]

/-- The address of the metadata mapping. -/
def main_elf_data (env : Env) (argv : List String) : Nat :=
  env.mmap_any (main_open_trace env argv) (main_request env argv)

/-- The metadata mapping, as a buffer. -/
def main_image (env : Env) (argv : List String) : Image :=
  elf_image env (main_fd env argv) (main_size env argv)

/-- The world in which `main`, started in `World.init`, begins the reporting
walk. -/
def report_start (env : Env) (argv : List String) (hdr : Elf32_Ehdr) : World :=
  { trace := main_open_trace env argv ++
      [.mmap (main_request env argv) (main_elf_data env argv),
       .printf "=== ELF File Information ===\n" [],
       .printf "Number of program headers: %d\n" [.int hdr.e_phnum],
       .printf "Program header offset: 0x%08x\n" [.int hdr.e_phoff],
       .printf "Entry point: 0x%08x\n\n" [.int hdr.e_entry],
       .printf "=== Program Headers ===\n" []]
    first := true
    entry_point := hdr.e_entry
    mem := map_pages env (main_request env argv) (main_elf_data env argv) (fun _ => none) }

/-- The reporting walk of `main`. -/
def report_result (env : Env) (argv : List String) (hdr : Elf32_Ehdr) : Result Int :=
  foreach_phdr (main_image env argv) print_phdr_detailed (main_fd env argv)
    (report_start env argv hdr)

/-- The world in which `main` begins the mapping walk. -/
def mapping_start (env : Env) (argv : List String) (hdr : Elf32_Ehdr) : World :=
  { (report_result env argv hdr).world with
    trace := (report_result env argv hdr).world.trace ++
      [.printf "\n" [], .printf "=== Loading Program ===\n" []] }

/-- The mapping walk of `main`. -/
def mapping_result (env : Env) (argv : List String) (hdr : Elf32_Ehdr) : Result Int :=
  foreach_phdr (main_image env argv) (load_phdr env) (main_fd env argv)
    (mapping_start env argv hdr)

/-- The statements of `main` that follow the mapping walk. -/
def main_tail (env : Env) (argv : List String) : M Int := do
  printf "\n" []
  let _ ← munmap (main_elf_data env argv) (main_size env argv)
  printf "=== Transferring Control ===\n" []
  let entry ← (fun w => Result.ok w.entry_point w)
  printf "Jumping to entry point: 0x%08x\n" [.int entry]
  startup env ((argv.length : Int) - 1) (argv.drop 1) entry
  unreachable
  let _ ← close (main_fd env argv)
  pure 1

/-- The world in which `main` invokes the stub, when the mapping walk has ended
in `w`: the metadata mapping is released and the stub is the last call. -/
def transfer_world (env : Env) (argv : List String) (w : World) : World :=
  { w with
    trace := w.trace ++
      [.printf "\n" [],
       .munmap (main_elf_data env argv) (main_size env argv),
       .printf "=== Transferring Control ===\n" [],
       .printf "Jumping to entry point: 0x%08x\n" [.int w.entry_point],
       .startup ((argv.length : Int) - 1) (argv.drop 1) w.entry_point]
    mem := fun a =>
      if main_elf_data env argv ≤ a ∧
          a < main_elf_data env argv + page_up (main_size env argv) then none
      else w.mem a }

/-- The world in which the process exits when the stub has come back. -/
def returned_world (w : World) : World :=
  { w with
    trace := w.trace ++ [.printf "Error: Returned from loaded program\n" [], .exit 1] }

/-- The mapping walk of `main` over the descriptors before index `i`. -/
def mapping_walk_before (env : Env) (argv : List String) (hdr : Elf32_Ehdr) (i : Nat) :
    Result Unit :=
  foreach_phdr_loop (main_image env argv) hdr.e_phoff (load_phdr env) (main_fd env argv) i 0
    (mapping_start env argv hdr)

/-- The world in which `load_phdr` ends the process when its request for `phdr`
is refused in `w`: the refused request is followed by the diagnostic and the
exit only. -/
def refused_world (phdr : Elf32_Phdr) (fd : Int) (w : World) : World :=
  { w with
    trace := w.trace ++
      [loading_line phdr, .mmap (segment_request phdr fd) MAP_FAILED,
       .perror "mmap failed", .exit 1] }

/-- A computation that returns to its caller from every world. -/
def Returns {α : Type} (m : M α) : Prop := ∀ w, (m w).is_ok = true

/-- Whether a call is a `printf`. -/
def Event.is_printf : Event → Bool
  | .printf _ _ => true
  | _ => false

/-- Whether a call is anything but an invocation of the stub. -/
def Event.not_startup : Event → Bool
  | .startup _ _ _ => false
  | _ => true

/-- A computation that only adds calls satisfying `P` to the trace and leaves
the variable `entry_point` alone, however it ends. -/
def Extends {α : Type} (P : Event → Bool) (m : M α) : Prop :=
  ∀ w, ∃ l, (m w).world.trace = w.trace ++ l ∧ l.all P = true ∧
    (m w).world.entry_point = w.entry_point

/-! ### The metadata buffer in the address space -/

/-- The memory shows the buffer `img` at address `addr`: every byte of the
buffer is mapped there, readable, with the value the buffer has.  While this
holds, a read through a pointer into the mapping gives what a read of the
buffer gives. -/
def Shows (mem : Memory) (addr : Nat) (img : Image) : Prop :=
  ∀ off, off < img.size →
    (mem (addr + off)).map (fun c => (decide (c.prot &&& PROT_READ ≠ 0), c.val)) =
      some (true, img.byte off % 256)

instance (mem : Memory) (addr : Nat) (img : Image) : Decidable (Shows mem addr img) := by
  unfold Shows; infer_instance

/-- A computation that leaves the memory of the addresses `lo ≤ a < hi` as it
found it, however it ends. -/
def Keeps {α : Type} (lo hi : Nat) (m : M α) : Prop :=
  ∀ w a, lo ≤ a → a < hi → (m w).world.mem a = w.mem a

/-- The descriptor makes `load_phdr` touch no address `lo ≤ a < hi`: when it is
loadable, neither the pages of its mapping nor the bytes of its zero-fill meet
that range. -/
def avoids (phdr : Elf32_Phdr) (lo hi : Nat) : Prop :=
  phdr.p_type = PT_LOAD →
    ((phdr.p_vaddr &&& 0xfffff000) +
        page_up ((phdr.p_memsz + (phdr.p_vaddr &&& 0xfff)) % 2 ^ 32) ≤ lo ∨
      hi ≤ (phdr.p_vaddr &&& 0xfffff000)) ∧
    (phdr.p_memsz > phdr.p_filesz →
      (phdr.p_vaddr + phdr.p_filesz) % 2 ^ 32 + (phdr.p_memsz - phdr.p_filesz) ≤ lo ∨
      hi ≤ (phdr.p_vaddr + phdr.p_filesz) % 2 ^ 32)

instance (phdr : Elf32_Phdr) (lo hi : Nat) : Decidable (avoids phdr lo hi) := by
  unfold avoids; infer_instance

/-! ### Concrete images and surroundings -/

/-- A 16-bit value as two little-endian bytes. -/
def le16 (n : Nat) : List Nat := [n % 256, n / 256 % 256]

/-- A 32-bit value as four little-endian bytes. -/
def le32 (n : Nat) : List Nat :=
  [n % 256, n / 256 % 256, n / 65536 % 256, n / 16777216 % 256]

/-- The 52 bytes of an executable's header: `magic0` is its first byte, the
class byte is `ELFCLASS32`. -/
def ehdr_bytes (magic0 entry phoff phnum : Nat) : List Nat :=
  [magic0, 'E'.toNat, 'L'.toNat, 'F'.toNat, 1, 1, 1, 0, 0, 0, 0, 0, 0, 0, 0, 0] ++
  le16 2 ++ le16 3 ++ le32 1 ++ le32 entry ++ le32 phoff ++ le32 0 ++ le32 0 ++
  le16 52 ++ le16 32 ++ le16 phnum ++ le16 0 ++ le16 0 ++ le16 0

/-- The 32 bytes of a descriptor. -/
def phdr_bytes (p : Elf32_Phdr) : List Nat :=
  le32 p.p_type ++ le32 p.p_offset ++ le32 p.p_vaddr ++ le32 p.p_paddr ++
  le32 p.p_filesz ++ le32 p.p_memsz ++ le32 p.p_flags ++ le32 p.p_align

/-- Surroundings in which the file `file` opens as descriptor 3, the kernel
maps it at `0xf7ff0000`, grants a fixed request when `grant` says so, and the
stub does not come back. -/
def env_of (file : List Nat) (grant : List Event → MmapReq → Bool) : Env :=
  { sys_open := fun _ => 3
    lseek := fun _ _ whence => if whence = SEEK_END then file.length else 0
    mmap_any := fun _ _ => 0xf7ff0000
    mmap_fixed := grant
    file_byte := fun _ i => file.getD i 0
    startup_returns := false }

/-- A read-only, executable segment at `0x10000` with `0x100` bytes in the
file and `0x200` bytes in memory. -/
def seg_text : Elf32_Phdr :=
  { p_type := PT_LOAD, p_offset := 0, p_vaddr := 0x10000, p_paddr := 0x10000,
    p_filesz := 0x100, p_memsz := 0x200, p_flags := PF_R ||| PF_X, p_align := 0x1000 }

/-- A writable segment whose address and file offset share the remainder
`0x123` modulo the page size. -/
def seg_data : Elf32_Phdr :=
  { p_type := PT_LOAD, p_offset := 0x123, p_vaddr := 0x20123, p_paddr := 0x20123,
    p_filesz := 0x10, p_memsz := 0x30, p_flags := PF_R ||| PF_W, p_align := 0x1000 }

/-- A loadable segment whose address and file offset differ modulo the page
size. -/
def seg_skew : Elf32_Phdr :=
  { p_type := PT_LOAD, p_offset := 0, p_vaddr := 0x10001, p_paddr := 0x10001,
    p_filesz := 0x10, p_memsz := 0x10, p_flags := PF_R, p_align := 1 }

/-- A segment that is not loadable. -/
def seg_note : Elf32_Phdr :=
  { p_type := PT_NOTE, p_offset := 0x200, p_vaddr := 0x30000, p_paddr := 0x30000,
    p_filesz := 0x20, p_memsz := 0x40, p_flags := PF_R ||| PF_W, p_align := 4 }

/-- A file with a valid header, the table `[seg_text]` at offset 52, and
non-zero bytes after it. -/
def file_text : List Nat :=
  ehdr_bytes 0x7f 0x10000 52 1 ++ phdr_bytes seg_text ++ List.replicate 300 0xAA

/-- A file whose table is `[seg_note, seg_data, seg_text]`. -/
def file_three : List Nat :=
  ehdr_bytes 0x7f 0x20123 52 3 ++ phdr_bytes seg_note ++ phdr_bytes seg_data ++
  phdr_bytes seg_text ++ List.replicate 400 0xAA

/-- A file whose table is `[seg_note, seg_data]`: every segment can be mapped
and zero-filled. -/
def file_two : List Nat :=
  ehdr_bytes 0x7f 0x20123 52 2 ++ phdr_bytes seg_note ++ phdr_bytes seg_data ++
  List.replicate 400 0xAA

/-- A file whose table is `[seg_data, seg_text, seg_note, seg_data]`. -/
def file_four : List Nat :=
  ehdr_bytes 0x7f 0x20123 52 4 ++ phdr_bytes seg_data ++ phdr_bytes seg_text ++
  phdr_bytes seg_note ++ phdr_bytes seg_data ++ List.replicate 400 0xAA

/-- A kernel that refuses a fixed mapping at `0x10000` and grants any other. -/
def refuse_text : List Event → MmapReq → Bool := fun _ req => decide (req.addr ≠ 0x10000)

/-- The file `file_text` with the first byte of its magic overwritten. -/
def file_corrupt : List Nat :=
  ehdr_bytes 0x7e 0x10000 52 1 ++ phdr_bytes seg_text ++ List.replicate 300 0xAA

/-- A world whose memory shows the bytes of `file`, read-only, at `addr`. -/
def world_showing (addr : Nat) (file : List Nat) : World :=
  { World.init with
    mem := fun a =>
      if addr ≤ a ∧ a < addr + file.length then
        some { prot := PROT_READ, val := file.getD (a - addr) 0 % 256 }
      else none }

/-- A buffer holding a list of bytes. -/
def image_of (file : List Nat) : Image :=
  { size := file.length, byte := fun i => file.getD i 0 }

/-- A valid header. -/
def hdr_valid : Elf32_Ehdr :=
  { e_ident := fun i => [0x7f, 'E'.toNat, 'L'.toNat, 'F'.toNat, 1, 1, 1].getD i 0
    e_type := 2, e_machine := 3, e_version := 1, e_entry := 0x10000, e_phoff := 52,
    e_shoff := 0, e_flags := 0, e_ehsize := 52, e_phentsize := 32, e_phnum := 1,
    e_shentsize := 0, e_shnum := 0, e_shstrndx := 0 }

/-- A header with the identification block of `hdr_valid` and other fields
changed. -/
def hdr_valid_other : Elf32_Ehdr :=
  { hdr_valid with
    e_ident := fun i => if i < 16 then hdr_valid.e_ident i else 0xff
    e_entry := 0xdeadbeef, e_phoff := 0xffffffff, e_phnum := 0xffff, e_machine := 62 }

/-! ## Lemmas on bit masks -/

theorem and_low12 (x : Nat) : x &&& 0xfff = x % 4096 :=
  Nat.and_pow_two_sub_one_eq_mod x 12

theorem and_high20 (x : Nat) (h : x < 2 ^ 32) : x &&& 0xfffff000 = x - x % 4096 := by
  have e1 : x - x % 4096 = (x >>> 12) <<< 12 := by
    rw [Nat.shiftLeft_eq, Nat.shiftRight_eq_div_pow]
    have := Nat.div_add_mod x 4096
    norm_num
    omega
  have e2 : (0xfffff000 : Nat) = (2 ^ 20 - 1) <<< 12 := by decide
  rw [e1, e2]
  apply Nat.eq_of_testBit_eq
  intro j
  simp only [Nat.testBit_and, Nat.testBit_shiftLeft, Nat.testBit_shiftRight,
    Nat.testBit_two_pow_sub_one]
  by_cases h12 : 12 ≤ j
  · have e3 : 12 + (j - 12) = j := by omega
    by_cases h32 : j < 32
    · have : j - 12 < 20 := by omega
      simp [h12, this, e3]
    · have hx : x.testBit j = false := by
        apply Nat.testBit_lt_two_pow
        exact lt_of_lt_of_le h (Nat.pow_le_pow_right (by decide) (by omega))
      simp [h12, e3, hx]
  · simp [h12]

theorem testBit_clear_low12 (x i : Nat) :
    (x - x % 4096).testBit i = (decide (12 ≤ i) && x.testBit i) := by
  have e1 : x - x % 4096 = (x >>> 12) <<< 12 := by
    rw [Nat.shiftLeft_eq, Nat.shiftRight_eq_div_pow]
    have := Nat.div_add_mod x 4096
    norm_num
    omega
  rw [e1, Nat.testBit_shiftLeft, Nat.testBit_shiftRight]
  by_cases h12 : 12 ≤ i
  · have e3 : 12 + (i - 12) = i := by omega
    simp [h12, e3]
  · simp [h12]

theorem page_base_ne_failed (x : Nat) : x &&& 0xfffff000 ≠ MAP_FAILED := by
  have h : x &&& 0xfffff000 ≤ 0xfffff000 := Nat.and_le_right
  unfold MAP_FAILED
  omega

/-! ## The validator -/

theorem memcmp_eq_zero_iff (n : Nat) : ∀ s1 s2 : Nat → Nat,
    memcmp s1 s2 n = 0 ↔ ∀ i, i < n → s1 i = s2 i := by
  induction n with
  | zero => intro s1 s2; simp [memcmp]
  | succ n ih =>
    intro s1 s2
    unfold memcmp
    by_cases h0 : s1 0 = s2 0
    · rw [if_pos h0, ih]
      constructor
      · intro h i hi
        cases i with
        | zero => exact h0
        | succ j => exact h j (by omega)
      · intro h i hi
        exact h (i + 1) (by omega)
    · rw [if_neg h0]
      constructor
      · intro h
        exact absurd (by omega) h0
      · intro h
        exact absurd (h 0 (by omega)) h0

/-! ## Lemmas on traces -/

theorem mmap_requests_append (l1 l2 : List Event) :
    mmap_requests (l1 ++ l2) = mmap_requests l1 ++ mmap_requests l2 := by
  induction l1 with
  | nil => rfl
  | cons e es ih => cases e <;> simp [mmap_requests, ih]

theorem memset_calls_append (l1 l2 : List Event) :
    memset_calls (l1 ++ l2) = memset_calls l1 ++ memset_calls l2 := by
  induction l1 with
  | nil => rfl
  | cons e es ih => cases e <;> simp [memset_calls, ih]

theorem startup_calls_append (l1 l2 : List Event) :
    startup_calls (l1 ++ l2) = startup_calls l1 ++ startup_calls l2 := by
  induction l1 with
  | nil => rfl
  | cons e es ih => cases e <;> simp [startup_calls, ih]

/-! ## Running the primitives -/

@[simp] theorem run_pure {α : Type} (a : α) (w : World) : (pure a : M α) w = .ok a w := rfl

@[simp] theorem run_bind {α β : Type} (m : M α) (f : α → M β) (w : World) :
    (m >>= f) w = M.bind m f w := rfl

@[simp] theorem run_ite {α : Type} (c : Prop) [Decidable c] (m1 m2 : M α) (w : World) :
    (if c then m1 else m2 : M α) w = if c then m1 w else m2 w := by
  split <;> rfl

theorem mmap_refused (env : Env) (req : MmapReq) (w : World)
    (hf : req.flags &&& MAP_FIXED ≠ 0) (hk : env.mmap_fixed w.trace req = false) :
    mmap env req w = .ok MAP_FAILED { w with trace := w.trace ++ [.mmap req MAP_FAILED] } := by
  simp [mmap, hf, hk]

theorem mmap_granted (env : Env) (req : MmapReq) (w : World)
    (hf : req.flags &&& MAP_FIXED ≠ 0) (ha : req.addr ≠ MAP_FAILED)
    (hk : env.mmap_fixed w.trace req = true) :
    mmap env req w = .ok req.addr { w with trace := w.trace ++ [.mmap req req.addr],
                                           mem := map_pages env req req.addr w.mem } := by
  simp [mmap, hf, hk, ha]

theorem memset_trace (s c n : Nat) (w : World) :
    (memset s c n w).world.trace = w.trace ++ [.memset s c n] := by
  unfold memset
  simp only
  split <;> rfl

/-! ## The segment mapper -/

theorem load_phdr_eq (env : Env) (phdr : Elf32_Phdr) (fd : Int) :
    load_phdr env phdr fd =
      if phdr.p_type ≠ PT_LOAD then pure ()
      else
        emit (loading_line phdr) >>= fun _ =>
        mmap env (segment_request phdr fd) >>= fun segment_ptr =>
        if segment_ptr = MAP_FAILED then
          perror "mmap failed" >>= fun _ => exit 1
        else
          emit (mapped_line segment_ptr) >>= fun _ =>
          if phdr.p_memsz > phdr.p_filesz then
            memset ((phdr.p_vaddr + phdr.p_filesz) % 2 ^ 32) 0 (phdr.p_memsz - phdr.p_filesz)
          else pure () := rfl

theorem segment_request_fixed (phdr : Elf32_Phdr) (fd : Int) :
    (segment_request phdr fd).flags &&& MAP_FIXED ≠ 0 := by
  show (MAP_PRIVATE ||| MAP_FIXED) &&& MAP_FIXED ≠ 0
  decide

theorem load_phdr_non_load (env : Env) (phdr : Elf32_Phdr) (fd : Int) (w : World)
    (h : phdr.p_type ≠ PT_LOAD) : load_phdr env phdr fd w = .ok () w := by
  rw [load_phdr_eq]
  simp only [ne_eq, h, not_false_eq_true, if_true]
  rfl

theorem load_phdr_refused (env : Env) (phdr : Elf32_Phdr) (fd : Int) (w : World)
    (hload : phdr.p_type = PT_LOAD)
    (hk : env.mmap_fixed (w.trace ++ [loading_line phdr]) (segment_request phdr fd) = false) :
    load_phdr env phdr fd w =
      .exit 1 { w with trace := w.trace ++ [loading_line phdr,
                  .mmap (segment_request phdr fd) MAP_FAILED, .perror "mmap failed", .exit 1] } := by
  rw [load_phdr_eq]
  simp only [hload, ne_eq, not_true_eq_false, if_false, run_bind, M.bind, emit]
  rw [mmap_refused env _ _ (segment_request_fixed phdr fd) hk]
  simp [M.bind, perror, emit, exit]

theorem load_phdr_granted (env : Env) (phdr : Elf32_Phdr) (fd : Int) (w : World)
    (hload : phdr.p_type = PT_LOAD)
    (hk : env.mmap_fixed (w.trace ++ [loading_line phdr]) (segment_request phdr fd) = true) :
    load_phdr env phdr fd w =
      (if phdr.p_memsz > phdr.p_filesz then
          memset ((phdr.p_vaddr + phdr.p_filesz) % 2 ^ 32) 0 (phdr.p_memsz - phdr.p_filesz)
        else pure ())
        { w with
          trace := w.trace ++ [loading_line phdr,
            .mmap (segment_request phdr fd) (phdr.p_vaddr &&& 0xfffff000),
            mapped_line (phdr.p_vaddr &&& 0xfffff000)]
          mem := map_pages env (segment_request phdr fd) (phdr.p_vaddr &&& 0xfffff000) w.mem } := by
  have hne : (segment_request phdr fd).addr ≠ MAP_FAILED := page_base_ne_failed phdr.p_vaddr
  rw [load_phdr_eq]
  simp only [hload, ne_eq, not_true_eq_false, if_false, run_bind, M.bind, emit]
  rw [mmap_granted env _ _ (segment_request_fixed phdr fd) hne hk]
  have hne2 : (phdr.p_vaddr &&& 0xfffff000) ≠ MAP_FAILED := page_base_ne_failed phdr.p_vaddr
  simp [M.bind, emit, segment_request, hne2]

/-- A loadable descriptor makes `load_phdr` issue exactly one `mmap` request,
the one of `segment_request`, whatever the kernel answers. -/
theorem load_phdr_requests (env : Env) (phdr : Elf32_Phdr) (fd : Int) (w : World)
    (hload : phdr.p_type = PT_LOAD) :
    mmap_requests (load_phdr env phdr fd w).world.trace =
      mmap_requests w.trace ++ [segment_request phdr fd] := by
  cases hk : env.mmap_fixed (w.trace ++ [loading_line phdr]) (segment_request phdr fd)
  · rw [load_phdr_refused env phdr fd w hload hk]
    simp [Result.world, mmap_requests_append, mmap_requests, loading_line]
  · rw [load_phdr_granted env phdr fd w hload hk]
    by_cases hz : phdr.p_memsz > phdr.p_filesz
    · simp only [hz, if_true, memset_trace]
      simp [mmap_requests_append, mmap_requests, loading_line, mapped_line]
    · simp [hz, Result.world, mmap_requests_append, mmap_requests, loading_line, mapped_line]


/-! ## The segment table walker -/

theorem read_phdr_inside (img : Image) (off : Nat) (h : off + 32 ≤ img.size) :
    read_phdr img off = some (phdr_at img off) := by
  have h2 : off + PHDR_SIZE ≤ img.size := h
  simp [read_phdr, phdr_at, h2]

theorem read_ehdr_inside (img : Image) (h : 52 ≤ img.size) :
    read_ehdr img = some (ehdr_at img) := by
  have h2 : EHDR_SIZE ≤ img.size := h
  simp [read_ehdr, ehdr_at, h2]

theorem Result.eq_ok_of_is_ok {α : Type} (r : Result α) (h : r.is_ok = true) :
    ∃ v, r = .ok v r.world := by
  cases r with
  | ok v w => exact ⟨v, rfl⟩
  | exit c w => exact absurd h Bool.false_ne_true
  | fault w => exact absurd h Bool.false_ne_true
  | jumped w => exact absurd h Bool.false_ne_true

theorem foreach_phdr_loop_eq_visit (img : Image) (table : Nat)
    (func : Elf32_Phdr → Int → M Unit) (arg : Int) :
    ∀ n i, table + 32 * (i + n) ≤ img.size →
      foreach_phdr_loop img table func arg n i =
        visit_each func arg ((List.range' i n).map fun k => phdr_at img (table + 32 * k)) := by
  intro n
  induction n with
  | zero => intro i _; rfl
  | succ n ih =>
    intro i hb
    have hin : table + PHDR_SIZE * i + 32 ≤ img.size := by
      show table + 32 * i + 32 ≤ img.size
      omega
    have hrest : table + 32 * (i + 1 + n) ≤ img.size := by omega
    rw [foreach_phdr_loop, read_phdr_inside img _ hin, ih (i + 1) hrest]
    rfl

theorem visit_each_ok (func : Elf32_Phdr → Int → M Unit) (arg : Int)
    (hf : ∀ p w, (func p arg w).is_ok = true) :
    ∀ (ps : List Elf32_Phdr) (w : World), (visit_each func arg ps w).is_ok = true := by
  intro ps
  induction ps with
  | nil => intro w; rfl
  | cons p ps ih =>
    intro w
    obtain ⟨v, hv⟩ := Result.eq_ok_of_is_ok _ (hf p w)
    show (M.bind (func p arg) (fun _ => visit_each func arg ps) w).is_ok = true
    unfold M.bind
    rw [hv]
    exact ih _

theorem foreach_phdr_valid (img : Image) (hdr : Elf32_Ehdr) (hh : read_ehdr img = some hdr)
    (hv : validate_elf32 hdr ≠ 0) (func : Elf32_Phdr → Int → M Unit) (arg : Int) :
    foreach_phdr img func arg =
      (foreach_phdr_loop img hdr.e_phoff func arg hdr.e_phnum 0 >>= fun _ => pure 0) := by
  unfold foreach_phdr
  rw [hh]
  simp only [hv, if_false]

theorem foreach_phdr_invalid (img : Image) (hdr : Elf32_Ehdr) (hh : read_ehdr img = some hdr)
    (hv : validate_elf32 hdr = 0) (func : Elf32_Phdr → Int → M Unit) (arg : Int) (w : World) :
    foreach_phdr img func arg w =
      .ok (-1) { w with trace := w.trace ++ [.printf "Error: Invalid ELF32 file\n" []] } := by
  unfold foreach_phdr
  rw [hh]
  simp only [hv, if_true]
  rfl

/-! ## The driver up to the mapping walk -/

theorem mmap_anywhere (env : Env) (req : MmapReq) (w : World)
    (hf : req.flags &&& MAP_FIXED = 0) (hk : env.mmap_any w.trace req ≠ MAP_FAILED) :
    mmap env req w =
      .ok (env.mmap_any w.trace req)
        { w with trace := w.trace ++ [.mmap req (env.mmap_any w.trace req)],
                 mem := map_pages env req (env.mmap_any w.trace req) w.mem } := by
  simp [mmap, hf, hk]

theorem main_reaches_mapping (env : Env) (argv : List String) (hdr : Elf32_Ehdr)
    (hargc : 2 ≤ argv.length) (hopen : main_fd env argv ≠ -1)
    (hsize : env.lseek (main_fd env argv) 0 SEEK_END ≠ -1)
    (hmap : main_elf_data env argv ≠ MAP_FAILED)
    (hhdr : read_ehdr (main_image env argv) = some hdr)
    (hrep : (report_result env argv hdr).is_ok = true) :
    main env argv World.init =
      M.bind (fun _ => mapping_result env argv hdr) (fun _ => main_tail env argv) World.init := by
  have hargc2 : ¬ ((argv.length : Int) < 2) := by omega
  have hopen2 : ¬ env.sys_open (argv.getD 1 "") = -1 := hopen
  have hsize2 : ¬ env.lseek (env.sys_open (argv.getD 1 "")) 0 SEEK_END = -1 := hsize
  have hfl : (main_request env argv).flags &&& MAP_FIXED = 0 := by
    show MAP_PRIVATE &&& MAP_FIXED = 0
    decide
  have hmm := mmap_anywhere env (main_request env argv)
    { World.init with trace := main_open_trace env argv } hfl hmap
  simp only [main_request, main_open_trace, main_elf_data, main_size, main_fd, World.init,
    List.nil_append, List.cons_append] at hmm hmap
  have hhdr2 : read_ehdr (elf_image env (env.sys_open (argv.getD 1 ""))
      ((env.lseek (env.sys_open (argv.getD 1 "")) 0 SEEK_END).toNat % 2 ^ 32)) = some hdr := hhdr
  unfold main
  simp only [run_bind, M.bind, check_usage, hargc2, if_false, run_pure, sys_open, hopen2, run_ite,
    lseek, hsize2, World.init, List.nil_append, List.cons_append, List.append_assoc]
  rw [hmm]
  simp only [hmap, if_false, hhdr2]
  simp only [run_bind, M.bind, printf, emit, List.append_assoc, List.cons_append,
    List.nil_append]
  split
  · rename_i a w1 heq
    have hw : (report_result env argv hdr).world = w1 := congrArg Result.world heq
    unfold mapping_result mapping_start
    rw [hw]
    simp only [main_tail, main_image, main_fd, main_size, main_elf_data, main_request,
      main_open_trace, run_bind, M.bind, printf, emit, List.append_assoc, List.cons_append,
      List.nil_append]
  · rename_i c w1 heq
    exact absurd (hrep.symm.trans (congrArg Result.is_ok heq)) (by simp [Result.is_ok])
  · rename_i w1 heq
    exact absurd (hrep.symm.trans (congrArg Result.is_ok heq)) (by simp [Result.is_ok])
  · rename_i w1 heq
    exact absurd (hrep.symm.trans (congrArg Result.is_ok heq)) (by simp [Result.is_ok])

/-! ## What the walks add to the trace -/

theorem extends_pure {α : Type} (P : Event → Bool) (a : α) : Extends P (pure a : M α) := by
  intro w
  exact ⟨[], by simp [Result.world], rfl, rfl⟩

theorem extends_bind {α β : Type} (P : Event → Bool) (m : M α) (f : α → M β)
    (hm : Extends P m) (hf : ∀ a, Extends P (f a)) : Extends P (m >>= f) := by
  intro w
  obtain ⟨l1, h1, h2, h3⟩ := hm w
  show ∃ l, (M.bind m f w).world.trace = w.trace ++ l ∧ l.all P = true ∧
    (M.bind m f w).world.entry_point = w.entry_point
  unfold M.bind
  cases hr : m w with
  | ok a w1 =>
    rw [hr] at h1 h3
    obtain ⟨l2, k1, k2, k3⟩ := hf a w1
    refine ⟨l1 ++ l2, ?_, ?_, ?_⟩
    · show (f a w1).world.trace = _
      rw [k1]
      have h1b : w1.trace = w.trace ++ l1 := h1
      rw [h1b, List.append_assoc]
    · rw [List.all_append, h2, k2]; rfl
    · show (f a w1).world.entry_point = _
      rw [k3]
      exact h3
  | exit c w1 => rw [hr] at h1 h3; exact ⟨l1, h1, h2, h3⟩
  | fault w1 => rw [hr] at h1 h3; exact ⟨l1, h1, h2, h3⟩
  | jumped w1 => rw [hr] at h1 h3; exact ⟨l1, h1, h2, h3⟩

theorem extends_ite {α : Type} (P : Event → Bool) (c : Prop) [Decidable c] (m1 m2 : M α)
    (h1 : Extends P m1) (h2 : Extends P m2) : Extends P (if c then m1 else m2) := by
  split
  · exact h1
  · exact h2

theorem extends_emit (P : Event → Bool) (e : Event) (h : P e = true) : Extends P (emit e) := by
  intro w
  exact ⟨[e], rfl, by simp [h], rfl⟩

theorem extends_exit {α : Type} (P : Event → Bool) (c : Int) (h : P (.exit c) = true) :
    Extends P (exit c : M α) := by
  intro w
  exact ⟨[.exit c], rfl, by simp [h], rfl⟩

theorem extends_fault {α : Type} (P : Event → Bool) : Extends P (fault : M α) := by
  intro w
  exact ⟨[], by simp [fault, Result.world], rfl, rfl⟩

theorem extends_mmap (P : Event → Bool) (env : Env) (req : MmapReq)
    (h : ∀ ret, P (.mmap req ret) = true) : Extends P (mmap env req) := by
  intro w
  exact ⟨[.mmap req _], rfl, by simp [h], rfl⟩

theorem extends_memset (P : Event → Bool) (s c n : Nat) (h : P (.memset s c n) = true) :
    Extends P (memset s c n) := by
  intro w
  refine ⟨[.memset s c n], memset_trace s c n w, by simp [h], ?_⟩
  unfold memset
  simp only
  split <;> rfl

theorem extends_print_mmap_flags (prot : Nat) : Extends Event.is_printf (print_mmap_flags prot) := by
  have hp : ∀ fmt, Extends Event.is_printf (printf fmt []) := fun fmt =>
    extends_emit _ _ rfl
  have hc : ∀ (c : Prop) [Decidable c] (fmt : String) (k : PUnit → M Unit),
      (∀ y, Extends Event.is_printf (k y)) →
      Extends Event.is_printf
        (if c then printf fmt [] >>= k else pure PUnit.unit >>= k) := by
    intro c _ fmt k hk
    exact extends_ite _ _ _ _ (extends_bind _ _ _ (hp _) hk)
      (extends_bind _ _ _ (extends_pure _ _) hk)
  unfold print_mmap_flags
  apply extends_bind _ _ _ (hp _)
  intro _
  apply extends_bind _ _ _ (hp _)
  intro _
  dsimp only
  apply hc
  intro _
  apply hc
  intro _
  apply hc
  intro _
  exact hp _

theorem extends_print_phdr_detailed (phdr : Elf32_Phdr) (fd : Int) :
    Extends Event.is_printf (print_phdr_detailed phdr fd) := by
  unfold print_phdr_detailed
  refine extends_bind _ _ _ ?_ fun _ => ?_
  · intro w
    by_cases hf : w.first = true
    · simp only [hf, if_true]
      exact ⟨[_], rfl, rfl, rfl⟩
    · simp only [hf, if_false]
      exact ⟨[], by simp [Result.world], rfl, rfl⟩
  apply extends_bind _ _ _ (extends_emit _ _ rfl)
  intro _
  exact extends_ite _ _ _ _ (extends_print_mmap_flags _) (extends_pure _ _)

theorem extends_load_phdr (env : Env) (phdr : Elf32_Phdr) (fd : Int) :
    Extends Event.not_startup (load_phdr env phdr fd) := by
  rw [load_phdr_eq]
  refine extends_ite _ _ _ _ (extends_pure _ _) ?_
  refine extends_bind _ _ _ (extends_emit _ _ rfl) fun _ => ?_
  refine extends_bind _ _ _ (extends_mmap _ _ _ fun _ => rfl) fun p => ?_
  refine extends_ite _ _ _ _ ?_ ?_
  · exact extends_bind _ _ _ (extends_emit _ _ rfl) fun _ => extends_exit _ _ rfl
  · refine extends_bind _ _ _ (extends_emit _ _ rfl) fun _ => ?_
    exact extends_ite _ _ _ _ (extends_memset _ _ _ _ rfl) (extends_pure _ _)

theorem extends_loop (P : Event → Bool) (img : Image) (table : Nat)
    (func : Elf32_Phdr → Int → M Unit) (arg : Int) (hf : ∀ p, Extends P (func p arg)) :
    ∀ n i, Extends P (foreach_phdr_loop img table func arg n i) := by
  intro n
  induction n with
  | zero => intro i; exact extends_pure _ _
  | succ n ih =>
    intro i
    unfold foreach_phdr_loop
    split
    · exact extends_fault _
    · exact extends_bind _ _ _ (hf _) fun _ => ih _

theorem extends_foreach_phdr (P : Event → Bool) (img : Image)
    (func : Elf32_Phdr → Int → M Unit) (arg : Int) (hf : ∀ p, Extends P (func p arg))
    (hP : ∀ fmt args, P (.printf fmt args) = true) : Extends P (foreach_phdr img func arg) := by
  unfold foreach_phdr
  split
  · exact extends_fault _
  · refine extends_ite _ _ _ _ ?_ ?_
    · exact extends_bind _ _ _ (extends_emit _ _ (hP _ _)) fun _ => extends_pure _ _
    · exact extends_bind _ _ _ (extends_loop P img _ func arg hf _ _) fun _ => extends_pure _ _

theorem startup_calls_eq_nil (l : List Event) (h : l.all Event.not_startup = true) :
    startup_calls l = [] := by
  induction l with
  | nil => rfl
  | cons e es ih =>
    rw [List.all_cons, Bool.and_eq_true] at h
    cases e <;> first | exact ih h.2 | exact absurd h.1 (by simp [Event.not_startup])

theorem printf_only (l : List Event) (h : l.all Event.is_printf = true) :
    startup_calls l = [] ∧ mmap_requests l = [] ∧ memset_calls l = [] := by
  induction l with
  | nil => exact ⟨rfl, rfl, rfl⟩
  | cons e es ih =>
    rw [List.all_cons, Bool.and_eq_true] at h
    cases e <;> first | exact ih h.2 | exact absurd h.1 (by simp [Event.is_printf])

/-! ## Computations that always return -/

theorem returns_pure {α : Type} (a : α) : Returns (pure a : M α) := fun _ => rfl

theorem returns_emit (e : Event) : Returns (emit e) := fun _ => rfl

theorem returns_bind {α β : Type} (m : M α) (f : α → M β)
    (hm : Returns m) (hf : ∀ a, Returns (f a)) : Returns (m >>= f) := by
  intro w
  obtain ⟨v, hv⟩ := Result.eq_ok_of_is_ok _ (hm w)
  show (M.bind m f w).is_ok = true
  unfold M.bind
  rw [hv]
  exact hf v _

theorem returns_ite {α : Type} (c : Prop) [Decidable c] (m1 m2 : M α)
    (h1 : Returns m1) (h2 : Returns m2) : Returns (if c then m1 else m2) := by
  split
  · exact h1
  · exact h2

theorem returns_print_mmap_flags (prot : Nat) : Returns (print_mmap_flags prot) := by
  have hp : ∀ fmt, Returns (printf fmt []) := fun fmt => returns_emit _
  have hc : ∀ (c : Prop) [Decidable c] (fmt : String) (k : PUnit → M Unit),
      (∀ y, Returns (k y)) →
      Returns (if c then printf fmt [] >>= k else pure PUnit.unit >>= k) := by
    intro c _ fmt k hk
    exact returns_ite _ _ _ (returns_bind _ _ (hp _) hk) (returns_bind _ _ (returns_pure _) hk)
  unfold print_mmap_flags
  apply returns_bind _ _ (hp _)
  intro _
  apply returns_bind _ _ (hp _)
  intro _
  dsimp only
  apply hc
  intro _
  apply hc
  intro _
  apply hc
  intro _
  exact hp _

theorem returns_print_phdr_detailed (phdr : Elf32_Phdr) (fd : Int) :
    Returns (print_phdr_detailed phdr fd) := by
  unfold print_phdr_detailed
  refine returns_bind _ _ ?_ fun _ => ?_
  · intro w
    by_cases hf : w.first = true
    · simp only [hf, if_true]; rfl
    · simp only [hf, if_false]; rfl
  apply returns_bind _ _ (returns_emit _)
  intro _
  exact returns_ite _ _ _ (returns_print_mmap_flags _) (returns_pure _)

theorem main_tail_run (env : Env) (argv : List String) (w : World) :
    main_tail env argv w =
      if env.startup_returns then .exit 1 (returned_world (transfer_world env argv w))
      else .jumped (transfer_world env argv w) := by
  unfold main_tail
  simp only [run_bind, M.bind, printf, emit, munmap, startup, unreachable, exit,
    List.append_assoc, List.cons_append, List.nil_append]
  cases hs : env.startup_returns
  · simp [transfer_world]
  · simp [transfer_world, returned_world]

theorem mapping_world_facts (env : Env) (argv : List String) (hdr : Elf32_Ehdr) :
    (mapping_result env argv hdr).world.entry_point = hdr.e_entry ∧
    startup_calls (mapping_result env argv hdr).world.trace = [] ∧
    mmap_requests (mapping_start env argv hdr).trace = [main_request env argv] ∧
    memset_calls (mapping_start env argv hdr).trace = [] ∧
    startup_calls (mapping_start env argv hdr).trace = [] := by
  obtain ⟨l1, a1, a2, a3⟩ := extends_foreach_phdr Event.is_printf (main_image env argv)
    print_phdr_detailed (main_fd env argv) (fun p => extends_print_phdr_detailed p _)
    (fun _ _ => rfl) (report_start env argv hdr)
  obtain ⟨l2, b1, b2, b3⟩ := extends_foreach_phdr Event.not_startup (main_image env argv)
    (load_phdr env) (main_fd env argv) (fun p => extends_load_phdr env p _)
    (fun _ _ => rfl) (mapping_start env argv hdr)
  have hr : (report_result env argv hdr).world.trace = (report_start env argv hdr).trace ++ l1 := a1
  have hre : (report_result env argv hdr).world.entry_point = hdr.e_entry := a3
  have hm : (mapping_result env argv hdr).world.trace = (mapping_start env argv hdr).trace ++ l2 := b1
  have hme : (mapping_result env argv hdr).world.entry_point =
      (mapping_start env argv hdr).entry_point := b3
  have hst : (mapping_start env argv hdr).trace =
      (report_result env argv hdr).world.trace ++
        [.printf "\n" [], .printf "=== Loading Program ===\n" []] := rfl
  have hse : (mapping_start env argv hdr).entry_point =
      (report_result env argv hdr).world.entry_point := rfl
  obtain ⟨p1, p2, p3⟩ := printf_only l1 a2
  have hs0 : startup_calls (report_start env argv hdr).trace = [] := by
    simp [report_start, main_open_trace, startup_calls_append, startup_calls]
  have hm0 : mmap_requests (report_start env argv hdr).trace = [main_request env argv] := by
    simp [report_start, main_open_trace, mmap_requests_append, mmap_requests]
  have hz0 : memset_calls (report_start env argv hdr).trace = [] := by
    simp [report_start, main_open_trace, memset_calls_append, memset_calls]
  refine ⟨by rw [hme, hse, hre], ?_, ?_, ?_, ?_⟩
  · rw [hm, hst, hr]
    simp [startup_calls_append, startup_calls, hs0, p1, startup_calls_eq_nil l2 b2]
  · rw [hst, hr]
    simp [mmap_requests_append, mmap_requests, hm0, p2]
  · rw [hst, hr]
    simp [memset_calls_append, memset_calls, hz0, p3]
  · rw [hst, hr]
    simp [startup_calls_append, startup_calls, hs0, p1]


/-! ## A refused mapping -/

theorem loop_split (img : Image) (table : Nat) (f : Elf32_Phdr → Int → M Unit) (a : Int) :
    ∀ m n i w, foreach_phdr_loop img table f a (m + n) i w =
      M.bind (foreach_phdr_loop img table f a m i)
        (fun _ => foreach_phdr_loop img table f a n (i + m)) w := by
  intro m
  induction m with
  | zero =>
    intro n i w
    rw [Nat.zero_add]
    rfl
  | succ m ih =>
    intro n i w
    have e : m + 1 + n = (m + n) + 1 := by omega
    rw [e]
    unfold M.bind
    simp only [foreach_phdr_loop]
    cases hr : read_phdr img (table + PHDR_SIZE * i) with
    | none => rfl
    | some ph =>
      simp only [run_bind, M.bind]
      cases hf : f ph a w with
      | ok u w1 =>
        simp only
        rw [ih n (i + 1) w1]
        unfold M.bind
        have e2 : i + 1 + m = i + (m + 1) := by omega
        rw [e2]
      | exit c w1 => rfl
      | fault w1 => rfl
      | jumped w1 => rfl

theorem visit_requests (env : Env) (fd : Int) :
    ∀ (ps : List Elf32_Phdr) (w : World),
      (visit_each (load_phdr env) fd ps w).is_ok = true →
      mmap_requests (visit_each (load_phdr env) fd ps w).world.trace =
        mmap_requests w.trace ++
          ((ps.filter fun p => decide (p.p_type = PT_LOAD)).map fun p => segment_request p fd) := by
  intro ps
  induction ps with
  | nil => intro w _; simp [visit_each, Result.world]
  | cons p ps ih =>
    intro w h
    have hreq : p.p_type = PT_LOAD →
        mmap_requests (load_phdr env p fd w).world.trace =
          mmap_requests w.trace ++ [segment_request p fd] :=
      load_phdr_requests env p fd w
    have hskip : p.p_type ≠ PT_LOAD → load_phdr env p fd w = .ok () w :=
      load_phdr_non_load env p fd w
    simp only [visit_each, run_bind, M.bind] at h ⊢
    cases hr : load_phdr env p fd w with
    | ok u w1 =>
      rw [hr] at h hreq hskip
      simp only at h ⊢
      rw [ih w1 h]
      by_cases hl : p.p_type = PT_LOAD
      · have h1 : mmap_requests w1.trace = mmap_requests w.trace ++ [segment_request p fd] :=
          hreq hl
        rw [h1]
        simp [hl]
      · have h1 := hskip hl
        injection h1 with _ h2
        rw [h2]
        simp [hl]
    | exit c w1 => rw [hr] at h; exact absurd h (by simp [Result.is_ok])
    | fault w1 => rw [hr] at h; exact absurd h (by simp [Result.is_ok])
    | jumped w1 => rw [hr] at h; exact absurd h (by simp [Result.is_ok])

/-- On every image that fails validation (the earlier steps having succeeded),
both walks print the error line and return -1, which `main` ignores: it
releases the metadata mapping and invokes the stub with the entry address of
the rejected header.  No segment-mapping request is issued. -/
theorem main_on_rejected_image (env : Env) (argv : List String) (hdr : Elf32_Ehdr)
    (hargc : 2 ≤ argv.length) (hopen : main_fd env argv ≠ -1)
    (hsize : env.lseek (main_fd env argv) 0 SEEK_END ≠ -1)
    (hmap : main_elf_data env argv ≠ MAP_FAILED)
    (hhdr : read_ehdr (main_image env argv) = some hdr)
    (hbad : validate_elf32 hdr = 0) :
    main env argv World.init =
      (if env.startup_returns then
        .exit 1 (returned_world (transfer_world env argv (mapping_result env argv hdr).world))
      else .jumped (transfer_world env argv (mapping_result env argv hdr).world)) ∧
    mmap_requests (mapping_result env argv hdr).world.trace = [main_request env argv] ∧
    startup_calls (transfer_world env argv (mapping_result env argv hdr).world).trace =
      [((argv.length : Int) - 1, argv.drop 1, hdr.e_entry)] := by
  obtain ⟨he, hs, hreq0, _, _⟩ := mapping_world_facts env argv hdr
  have hrep : (report_result env argv hdr).is_ok = true := by
    unfold report_result
    rw [foreach_phdr_invalid _ hdr hhdr hbad]
    rfl
  have hwalk : mapping_result env argv hdr =
      .ok (-1) { mapping_start env argv hdr with
        trace := (mapping_start env argv hdr).trace ++
          [.printf "Error: Invalid ELF32 file\n" []] } := by
    unfold mapping_result
    rw [foreach_phdr_invalid _ hdr hhdr hbad]
  refine ⟨?_, ?_, ?_⟩
  · rw [main_reaches_mapping env argv hdr hargc hopen hsize hmap hhdr hrep]
    unfold M.bind
    simp only
    rw [hwalk]
    exact main_tail_run env argv _
  · rw [hwalk]
    show mmap_requests ((mapping_start env argv hdr).trace ++ _) = _
    rw [mmap_requests_append, hreq0]
    rfl
  · simp only [transfer_world, he]
    simp [startup_calls_append, startup_calls, hs]



/-! ## The zero-fill of a segment that is not writable -/

theorem get_prot_flags_write (flags : Nat) :
    get_prot_flags flags &&& PROT_WRITE ≠ 0 ↔ flags &&& PF_W ≠ 0 := by
  simp only [get_prot_flags, PF_R, PF_W, PF_X, PROT_READ, PROT_WRITE, PROT_EXEC]
  generalize flags &&& 4 = r
  generalize flags &&& 2 = w
  generalize flags &&& 1 = x
  by_cases h4 : r = 0 <;> by_cases h2 : w = 0 <;> by_cases h1 : x = 0 <;>
    simp only [h4, h2, h1, ne_eq, not_true_eq_false, not_false_eq_true, if_true, if_false] <;>
    decide

theorem le_page_up (n : Nat) : n ≤ page_up n := by
  unfold page_up PAGE_SIZE
  omega

/-- Whenever a loadable descriptor without `PF_W` has more bytes in memory than
in the file, its address range does not wrap and its mapping is granted, the
zero-fill of `load_phdr` ends in an invalid memory access at the first byte of
the gap, which keeps the byte of the file. -/
theorem zero_fill_faults_without_write (env : Env) (phdr : Elf32_Phdr) (fd : Int) (w : World)
    (hwf : phdr.wf) (hload : phdr.p_type = PT_LOAD)
    (hgap : phdr.p_memsz > phdr.p_filesz) (hro : phdr.p_flags &&& PF_W = 0)
    (hfit : phdr.p_vaddr + phdr.p_memsz < 2 ^ 32)
    (hk : env.mmap_fixed (w.trace ++ [loading_line phdr]) (segment_request phdr fd) = true) :
    (load_phdr env phdr fd w).is_fault = true ∧
    (load_phdr env phdr fd w).world.mem (phdr.p_vaddr + phdr.p_filesz) =
      some { prot := get_prot_flags phdr.p_flags
             val := env.file_byte fd ((phdr.p_offset - phdr.p_offset % 4096) +
               (phdr.p_filesz + phdr.p_vaddr % 4096)) % 256 } := by
  obtain ⟨_, hoff, hva, _⟩ := hwf
  have hbase : phdr.p_vaddr &&& 0xfffff000 = phdr.p_vaddr - phdr.p_vaddr % 4096 :=
    and_high20 _ hva
  have hobase : phdr.p_offset &&& 0xfffff000 = phdr.p_offset - phdr.p_offset % 4096 :=
    and_high20 _ hoff
  have hmod := Nat.mod_le phdr.p_vaddr 4096
  have hlen : (segment_request phdr fd).length = phdr.p_memsz + phdr.p_vaddr % 4096 := by
    show (phdr.p_memsz + (phdr.p_vaddr &&& 0xfff)) % 2 ^ 32 = _
    rw [and_low12, Nat.mod_eq_of_lt (by omega)]
  have hgapaddr : (phdr.p_vaddr + phdr.p_filesz) % 2 ^ 32 = phdr.p_vaddr + phdr.p_filesz :=
    Nat.mod_eq_of_lt (by omega)
  have hup := le_page_up (segment_request phdr fd).length
  have hnw : ¬ (get_prot_flags phdr.p_flags &&& PROT_WRITE ≠ 0) := by
    rw [get_prot_flags_write]
    exact fun h => h hro
  -- the byte at the start of the gap, right after the mapping
  have hcell : map_pages env (segment_request phdr fd) (phdr.p_vaddr &&& 0xfffff000) w.mem
      (phdr.p_vaddr + phdr.p_filesz) =
      some { prot := get_prot_flags phdr.p_flags
             val := env.file_byte fd ((phdr.p_offset - phdr.p_offset % 4096) +
               (phdr.p_filesz + phdr.p_vaddr % 4096)) % 256 } := by
    unfold map_pages
    rw [hbase]
    have hc : phdr.p_vaddr - phdr.p_vaddr % 4096 ≤ phdr.p_vaddr + phdr.p_filesz ∧
        phdr.p_vaddr + phdr.p_filesz <
          phdr.p_vaddr - phdr.p_vaddr % 4096 + page_up (segment_request phdr fd).length ∧
        phdr.p_vaddr + phdr.p_filesz < 2 ^ 32 := by
      refine ⟨by omega, by omega, by omega⟩
    rw [if_pos hc]
    have e1 : (segment_request phdr fd).offset = phdr.p_offset - phdr.p_offset % 4096 := hobase
    have e2 : phdr.p_vaddr + phdr.p_filesz - (phdr.p_vaddr - phdr.p_vaddr % 4096) =
        phdr.p_filesz + phdr.p_vaddr % 4096 := by omega
    rw [e1, e2]
    rfl
  obtain ⟨k, hkn⟩ : ∃ k, phdr.p_memsz - phdr.p_filesz = k + 1 := ⟨phdr.p_memsz - phdr.p_filesz - 1, by omega⟩
  rw [load_phdr_granted env phdr fd w hload hk]
  simp only [hgap, if_true, hgapaddr, hkn, memset, memset_bytes, hcell, hnw, if_false]
  exact ⟨rfl, hcell⟩

/-! ## Computations that leave the metadata buffer alone -/

theorem keeps_pure {α : Type} (lo hi : Nat) (a : α) : Keeps lo hi (pure a : M α) :=
  fun _ _ _ _ => rfl

theorem keeps_emit (lo hi : Nat) (e : Event) : Keeps lo hi (emit e) := fun _ _ _ _ => rfl

theorem keeps_exit {α : Type} (lo hi : Nat) (c : Int) : Keeps lo hi (exit c : M α) :=
  fun _ _ _ _ => rfl

theorem keeps_fault {α : Type} (lo hi : Nat) : Keeps lo hi (fault : M α) :=
  fun _ _ _ _ => rfl

theorem keeps_bind {α β : Type} (lo hi : Nat) (m : M α) (f : α → M β)
    (hm : Keeps lo hi m) (hf : ∀ a, Keeps lo hi (f a)) : Keeps lo hi (m >>= f) := by
  intro w a h1 h2
  have k := hm w a h1 h2
  show (M.bind m f w).world.mem a = w.mem a
  unfold M.bind
  cases hr : m w with
  | ok v w1 =>
    rw [hr] at k
    have k2 := hf v w1 a h1 h2
    show (f v w1).world.mem a = _
    rw [k2]
    exact k
  | exit c w1 => rw [hr] at k; exact k
  | fault w1 => rw [hr] at k; exact k
  | jumped w1 => rw [hr] at k; exact k

theorem keeps_ite {α : Type} (lo hi : Nat) (c : Prop) [Decidable c] (m1 m2 : M α)
    (h1 : Keeps lo hi m1) (h2 : Keeps lo hi m2) : Keeps lo hi (if c then m1 else m2) := by
  split
  · exact h1
  · exact h2

theorem keeps_print_mmap_flags (lo hi : Nat) (prot : Nat) :
    Keeps lo hi (print_mmap_flags prot) := by
  have hp : ∀ fmt, Keeps lo hi (printf fmt []) := fun fmt => keeps_emit _ _ _
  have hc : ∀ (c : Prop) [Decidable c] (fmt : String) (k : PUnit → M Unit),
      (∀ y, Keeps lo hi (k y)) →
      Keeps lo hi (if c then printf fmt [] >>= k else pure PUnit.unit >>= k) := by
    intro c _ fmt k hk
    exact keeps_ite _ _ _ _ _ (keeps_bind _ _ _ _ (hp _) hk)
      (keeps_bind _ _ _ _ (keeps_pure _ _ _) hk)
  unfold print_mmap_flags
  apply keeps_bind _ _ _ _ (hp _)
  intro _
  apply keeps_bind _ _ _ _ (hp _)
  intro _
  dsimp only
  apply hc
  intro _
  apply hc
  intro _
  apply hc
  intro _
  exact hp _

theorem keeps_print_phdr_detailed (lo hi : Nat) (phdr : Elf32_Phdr) (fd : Int) :
    Keeps lo hi (print_phdr_detailed phdr fd) := by
  unfold print_phdr_detailed
  refine keeps_bind _ _ _ _ ?_ fun _ => ?_
  · intro w a _ _
    by_cases hf : w.first = true
    · simp only [hf, if_true]; rfl
    · simp only [hf, if_false]; rfl
  apply keeps_bind _ _ _ _ (keeps_emit _ _ _)
  intro _
  exact keeps_ite _ _ _ _ _ (keeps_print_mmap_flags _ _ _) (keeps_pure _ _ _)

theorem memset_bytes_frame (c : Nat) :
    ∀ (n s : Nat) (mem : Memory) (a : Nat), (a < s ∨ s + n ≤ a) →
      (memset_bytes c s n mem).2 a = mem a := by
  intro n
  induction n with
  | zero => intro s mem a _; rfl
  | succ n ih =>
    intro s mem a ha
    unfold memset_bytes
    cases hm : mem s with
    | none => rfl
    | some cell =>
      simp only
      split
      · rw [ih (s + 1) _ a (by omega)]
        have hne : a ≠ s := by omega
        simp [hne]
      · rfl

theorem keeps_memset (lo hi : Nat) (s c n : Nat) (h : s + n ≤ lo ∨ hi ≤ s) :
    Keeps lo hi (memset s c n) := by
  intro w a h1 h2
  have hf := memset_bytes_frame c n s w.mem a (by omega)
  unfold memset
  simp only
  split
  · exact hf
  · exact hf

theorem keeps_load_phdr (env : Env) (phdr : Elf32_Phdr) (fd : Int) (lo hi : Nat)
    (h : avoids phdr lo hi) : Keeps lo hi (load_phdr env phdr fd) := by
  intro w a h1 h2
  by_cases hload : phdr.p_type = PT_LOAD
  · obtain ⟨hmap, hzero⟩ := h hload
    cases hk : env.mmap_fixed (w.trace ++ [loading_line phdr]) (segment_request phdr fd)
    · rw [load_phdr_refused env phdr fd w hload hk]
      rfl
    · rw [load_phdr_granted env phdr fd w hload hk]
      have hpages : map_pages env (segment_request phdr fd) (phdr.p_vaddr &&& 0xfffff000)
          w.mem a = w.mem a := by
        unfold map_pages
        have hlen : (segment_request phdr fd).length =
            (phdr.p_memsz + (phdr.p_vaddr &&& 0xfff)) % 2 ^ 32 := rfl
        rw [hlen]
        rw [if_neg]
        intro hc
        omega
      by_cases hz : phdr.p_memsz > phdr.p_filesz
      · simp only [hz, if_true]
        rw [keeps_memset lo hi _ 0 _ (hzero hz) _ a h1 h2]
        exact hpages
      · simp only [hz, if_false]
        exact hpages
  · rw [load_phdr_non_load env phdr fd w hload]
    rfl

theorem keeps_visit_each (lo hi : Nat) (func : Elf32_Phdr → Int → M Unit) (arg : Int) :
    ∀ ps : List Elf32_Phdr, (∀ p, p ∈ ps → Keeps lo hi (func p arg)) →
      Keeps lo hi (visit_each func arg ps) := by
  intro ps
  induction ps with
  | nil => intro _; exact keeps_pure _ _ _
  | cons p ps ih =>
    intro h
    exact keeps_bind _ _ _ _ (h p (List.mem_cons_self _ _))
      fun _ => ih fun q hq => h q (List.mem_cons_of_mem _ hq)

theorem keeps_loop (lo hi : Nat) (img : Image) (table : Nat)
    (func : Elf32_Phdr → Int → M Unit) (arg : Int) (hf : ∀ p, Keeps lo hi (func p arg)) :
    ∀ n i, Keeps lo hi (foreach_phdr_loop img table func arg n i) := by
  intro n
  induction n with
  | zero => intro i; exact keeps_pure _ _ _
  | succ n ih =>
    intro i
    unfold foreach_phdr_loop
    split
    · exact keeps_fault _ _
    · exact keeps_bind _ _ _ _ (hf _) fun _ => ih _

theorem keeps_foreach_phdr (lo hi : Nat) (img : Image)
    (func : Elf32_Phdr → Int → M Unit) (arg : Int) (hf : ∀ p, Keeps lo hi (func p arg)) :
    Keeps lo hi (foreach_phdr img func arg) := by
  unfold foreach_phdr
  split
  · exact keeps_fault _ _
  · refine keeps_ite _ _ _ _ _ ?_ ?_
    · exact keeps_bind _ _ _ _ (keeps_emit _ _ _) fun _ => keeps_pure _ _ _
    · exact keeps_bind _ _ _ _ (keeps_loop lo hi img _ func arg hf _ _) fun _ => keeps_pure _ _ _

theorem shows_of_same (mem mem' : Memory) (addr : Nat) (img : Image)
    (h : Shows mem addr img) (hs : ∀ a, addr ≤ a → a < addr + img.size → mem' a = mem a) :
    Shows mem' addr img := by
  intro off hoff
  rw [hs (addr + off) (by omega) (by omega)]
  exact h off hoff

/-- Right after the metadata mapping is made, the memory shows the buffer that
the walks of `main` read. -/
theorem shows_report_start (env : Env) (argv : List String) (hdr : Elf32_Ehdr)
    (hspace : main_elf_data env argv + (main_image env argv).size ≤ 2 ^ 32) :
    Shows (report_start env argv hdr).mem (main_elf_data env argv) (main_image env argv) := by
  intro off hoff
  have hsz : (main_image env argv).size = page_up (main_size env argv) := rfl
  have hlen : (main_request env argv).length = main_size env argv := rfl
  show (map_pages env (main_request env argv) (main_elf_data env argv) (fun _ => none)
    (main_elf_data env argv + off)).map _ = _
  unfold map_pages
  rw [hlen, if_pos ⟨by omega, by omega, by omega⟩]
  have e : main_elf_data env argv + off - main_elf_data env argv = off := by omega
  have e2 : (main_request env argv).offset + off = off := Nat.zero_add off
  have e3 : decide ((main_request env argv).prot &&& PROT_READ ≠ 0) = true := by
    show decide (PROT_READ &&& PROT_READ ≠ 0) = true
    decide
  simp only [Option.map_some', e, e2, e3]
  rfl
/-! ## The properties -/

/-- C6: for every flags word, the protection returned by `get_prot_flags`
contains read permission iff `PF_R` is set, write permission iff `PF_W` is set,
execute permission iff `PF_X` is set, and no other bit: it is the sum of the
three permissions granted (so it is 0 when none of the three bits is set), and
bits of the flags word above the low three do not change it. -/
theorem get_prot_flags_spec (flags : Nat) :
    (get_prot_flags flags &&& PROT_READ ≠ 0 ↔ flags &&& PF_R ≠ 0) ∧
    (get_prot_flags flags &&& PROT_WRITE ≠ 0 ↔ flags &&& PF_W ≠ 0) ∧
    (get_prot_flags flags &&& PROT_EXEC ≠ 0 ↔ flags &&& PF_X ≠ 0) ∧
    get_prot_flags flags =
      (if flags &&& 4 ≠ 0 then 1 else 0) + (if flags &&& 2 ≠ 0 then 2 else 0) +
      (if flags &&& 1 ≠ 0 then 4 else 0) ∧
    get_prot_flags flags &&& (PROT_READ ||| PROT_WRITE ||| PROT_EXEC) = get_prot_flags flags ∧
    get_prot_flags flags = get_prot_flags (flags &&& 7) := by
  have a4 : (flags &&& 7) &&& 4 = flags &&& 4 := Nat.and_assoc flags 7 4
  have a2 : (flags &&& 7) &&& 2 = flags &&& 2 := Nat.and_assoc flags 7 2
  have a1 : (flags &&& 7) &&& 1 = flags &&& 1 := Nat.and_assoc flags 7 1
  simp only [get_prot_flags, PF_R, PF_W, PF_X, PROT_READ, PROT_WRITE, PROT_EXEC, a4, a2, a1]
  generalize flags &&& 4 = r
  generalize flags &&& 2 = w
  generalize flags &&& 1 = x
  by_cases h4 : r = 0 <;> by_cases h2 : w = 0 <;> by_cases h1 : x = 0 <;>
    simp only [h4, h2, h1, ne_eq, not_true_eq_false, not_false_eq_true, if_true, if_false] <;>
    decide

/-- C2: `validate_elf32` returns true (non-zero, in fact 1) iff the first four
identification bytes are `0x7f 'E' 'L' 'F'` and the class byte is `ELFCLASS32`,
and returns 0 otherwise; a header `hdr'` with the same identification block
gets the same result, whatever its other fields. -/
theorem validate_elf32_spec (hdr hdr' : Elf32_Ehdr)
    (h : ∀ i, i < 16 → hdr'.e_ident i = hdr.e_ident i) :
    (validate_elf32 hdr ≠ 0 ↔
      hdr.e_ident 0 = 0x7f ∧ hdr.e_ident 1 = 'E'.toNat ∧ hdr.e_ident 2 = 'L'.toNat ∧
      hdr.e_ident 3 = 'F'.toNat ∧ hdr.e_ident EI_CLASS = ELFCLASS32) ∧
    (validate_elf32 hdr = 1 ∨ validate_elf32 hdr = 0) ∧
    validate_elf32 hdr' = validate_elf32 hdr := by
  have key : ∀ g : Elf32_Ehdr, (validate_elf32 g ≠ 0 ↔
      g.e_ident 0 = 0x7f ∧ g.e_ident 1 = 'E'.toNat ∧ g.e_ident 2 = 'L'.toNat ∧
      g.e_ident 3 = 'F'.toNat ∧ g.e_ident EI_CLASS = ELFCLASS32) ∧
      (validate_elf32 g = 1 ∨ validate_elf32 g = 0) := by
    intro g
    have hm : memcmp g.e_ident ELFMAG SELFMAG = 0 ↔
        g.e_ident 0 = 0x7f ∧ g.e_ident 1 = 'E'.toNat ∧ g.e_ident 2 = 'L'.toNat ∧
        g.e_ident 3 = 'F'.toNat := by
      rw [memcmp_eq_zero_iff]
      constructor
      · intro hall
        exact ⟨hall 0 (by decide), hall 1 (by decide), hall 2 (by decide), hall 3 (by decide)⟩
      · rintro ⟨a, b, c, d⟩ i hi
        have hi4 : i < 4 := hi
        interval_cases i
        · exact a
        · exact b
        · exact c
        · exact d
    unfold validate_elf32
    by_cases hc : memcmp g.e_ident ELFMAG SELFMAG = 0 ∧ g.e_ident EI_CLASS = ELFCLASS32
    · rw [if_pos hc]
      refine ⟨⟨fun _ => ?_, fun _ => by decide⟩, Or.inl rfl⟩
      obtain ⟨a, b, c, d⟩ := hm.mp hc.1
      exact ⟨a, b, c, d, hc.2⟩
    · rw [if_neg hc]
      refine ⟨⟨fun hne => absurd rfl hne, fun hx => ?_⟩, Or.inr rfl⟩
      exact absurd ⟨hm.mpr ⟨hx.1, hx.2.1, hx.2.2.1, hx.2.2.2.1⟩, hx.2.2.2.2⟩ hc
  refine ⟨(key hdr).1, (key hdr).2, ?_⟩
  have e0 := h 0 (by decide)
  have e1 := h 1 (by decide)
  have e2 := h 2 (by decide)
  have e3 := h 3 (by decide)
  have e4 : hdr'.e_ident EI_CLASS = hdr.e_ident EI_CLASS := h 4 (by decide)
  have k1 := (key hdr).1
  have k2 := (key hdr').1
  rw [e0, e1, e2, e3, e4] at k2
  have k3 : validate_elf32 hdr' ≠ 0 ↔ validate_elf32 hdr ≠ 0 := k2.trans k1.symm
  rcases (key hdr).2 with a | a <;> rcases (key hdr').2 with b | b
  · rw [a, b]
  · exact absurd b (k3.mpr (by rw [a]; decide))
  · exact absurd a (k3.mp (by rw [b]; decide))
  · rw [a, b]

/-- Witness of C2: `hdr_valid` and `hdr_valid_other` share the identification
block and differ elsewhere; both are accepted. -/
theorem validate_elf32_spec_witness :
    validate_elf32 hdr_valid = 1 ∧ validate_elf32 hdr_valid_other = validate_elf32 hdr_valid ∧
    hdr_valid_other.e_entry ≠ hdr_valid.e_entry := by
  have h := validate_elf32_spec hdr_valid hdr_valid_other (by
    intro i hi
    simp [hdr_valid_other, hi])
  exact ⟨by decide, h.2.2, by decide⟩

/-- C9: for a descriptor whose type is not `PT_LOAD`, `load_phdr` returns
normally and leaves the world as it found it: no call is recorded (no `mmap`,
no `memset`) and the address space is unchanged. -/
theorem load_phdr_skips_non_load (env : Env) (phdr : Elf32_Phdr) (fd : Int) (w : World)
    (h : phdr.p_type ≠ PT_LOAD) : load_phdr env phdr fd w = .ok () w := by
  simp [load_phdr, h]

/-- Witness of C9: the note segment. -/
theorem load_phdr_skips_non_load_witness :
    seg_note.p_type ≠ PT_LOAD ∧
    load_phdr (env_of file_three fun _ _ => true) seg_note 3 World.init = .ok () World.init :=
  ⟨by decide, load_phdr_skips_non_load _ seg_note 3 World.init (by decide)⟩


/-- C5: for a loadable descriptor, `load_phdr` issues exactly one `mmap`
request.  It is fixed-address, private and file-backed on `fd`; its address is
`p_vaddr` with the low 12 bits cleared, its file offset is `p_offset` with the
low 12 bits cleared, its length is `p_memsz + p_vaddr mod 4096` modulo `2 ^ 32`,
its protection is `get_prot_flags p_flags`.  The address is a multiple of 4096,
and when the length does not wrap, the requested range starts at or below
`p_vaddr` and ends exactly at `p_vaddr + p_memsz`. -/
theorem load_phdr_mapping_request (env : Env) (phdr : Elf32_Phdr) (fd : Int) (w : World)
    (hwf : phdr.wf) (hload : phdr.p_type = PT_LOAD) :
    ∃ req : MmapReq,
      mmap_requests (load_phdr env phdr fd w).world.trace = mmap_requests w.trace ++ [req] ∧
      req.flags &&& MAP_FIXED ≠ 0 ∧ req.flags &&& MAP_PRIVATE ≠ 0 ∧
      req.flags &&& MAP_SHARED = 0 ∧ req.flags &&& MAP_ANONYMOUS = 0 ∧ req.fd = fd ∧
      req.addr = phdr.p_vaddr - phdr.p_vaddr % 4096 ∧
      (∀ i, req.addr.testBit i = (decide (12 ≤ i) && phdr.p_vaddr.testBit i)) ∧
      req.offset = phdr.p_offset - phdr.p_offset % 4096 ∧
      (∀ i, req.offset.testBit i = (decide (12 ≤ i) && phdr.p_offset.testBit i)) ∧
      req.length = (phdr.p_memsz + phdr.p_vaddr % 4096) % 2 ^ 32 ∧
      req.prot = get_prot_flags phdr.p_flags ∧
      req.addr % 4096 = 0 ∧
      (phdr.p_memsz + phdr.p_vaddr % 4096 < 2 ^ 32 →
        req.addr ≤ phdr.p_vaddr ∧ req.addr + req.length = phdr.p_vaddr + phdr.p_memsz) := by
  obtain ⟨_, hoff, hva, _⟩ := hwf
  have ha : (segment_request phdr fd).addr = phdr.p_vaddr - phdr.p_vaddr % 4096 :=
    and_high20 _ hva
  have ho : (segment_request phdr fd).offset = phdr.p_offset - phdr.p_offset % 4096 :=
    and_high20 _ hoff
  have hl : (segment_request phdr fd).length = (phdr.p_memsz + phdr.p_vaddr % 4096) % 2 ^ 32 := by
    show (phdr.p_memsz + (phdr.p_vaddr &&& 0xfff)) % 2 ^ 32 = _
    rw [and_low12]
  have hmod := Nat.mod_lt phdr.p_vaddr (show 0 < 4096 by decide)
  have hdm := Nat.div_add_mod phdr.p_vaddr 4096
  have f1 : (MAP_PRIVATE ||| MAP_FIXED) &&& MAP_FIXED ≠ 0 := by decide
  have f2 : (MAP_PRIVATE ||| MAP_FIXED) &&& MAP_PRIVATE ≠ 0 := by decide
  have f3 : (MAP_PRIVATE ||| MAP_FIXED) &&& MAP_SHARED = 0 := by decide
  have f4 : (MAP_PRIVATE ||| MAP_FIXED) &&& MAP_ANONYMOUS = 0 := by decide
  refine ⟨segment_request phdr fd, load_phdr_requests env phdr fd w hload, f1, f2, f3, f4,
    rfl, ha, ?_, ho, ?_, hl, rfl, ?_, ?_⟩
  · intro i; rw [ha]; exact testBit_clear_low12 _ i
  · intro i; rw [ho]; exact testBit_clear_low12 _ i
  · rw [ha]; omega
  · intro hnw
    rw [ha, hl, Nat.mod_eq_of_lt hnw]
    omega

/-- Witness of C5: for `seg_data` (address `0x20123`, `0x30` bytes in memory)
the one request issued is at `0x20000`, of length `0x153`, with protection
read and write, on descriptor 3, at file offset 0. -/
theorem load_phdr_mapping_request_witness :
    (mmap_requests (load_phdr (env_of file_three fun _ _ => true) seg_data 3
      World.init).world.trace).map (fun r => (r.addr, r.length, r.prot, r.fd, r.offset)) =
      [(0x20000, 0x153, PROT_READ ||| PROT_WRITE, 3, 0)] := by
  obtain ⟨req, h1, _, _, _, _, h6, h7, _, h9, _, h11, h12, _⟩ :=
    load_phdr_mapping_request (env_of file_three fun _ _ => true) seg_data 3 World.init
      (by decide) (by decide)
  rw [h1]
  show [(req.addr, req.length, req.prot, req.fd, req.offset)] = _
  rw [h6, h7, h9, h11, h12]
  decide

/-- C4 fails as stated: for the loadable `seg_skew` (address `0x10001`, file
offset 0) the bits masked off the address are 1 and the bits masked off the
offset are 0. -/
theorem skewed_segment_remainders_differ :
    seg_skew.p_type = PT_LOAD ∧
    (mmap_requests (load_phdr (env_of file_text fun _ _ => true) seg_skew 3
      World.init).world.trace).map
        (fun r => (seg_skew.p_vaddr - r.addr, seg_skew.p_offset - r.offset)) = [(1, 0)] := by
  decide!

/-- C4, amended: for a loadable descriptor, the bits masked off the virtual
address are `p_vaddr mod 4096`, the bits masked off the file offset are
`p_offset mod 4096`, and the pad added to the in-memory size to obtain the
requested length is the remainder of the address.  The two remainders are
identical exactly when `p_vaddr` and `p_offset` are congruent modulo 4096,
which `load_phdr` does not check. -/
theorem page_remainders (env : Env) (phdr : Elf32_Phdr) (fd : Int) (w : World)
    (hwf : phdr.wf) (hload : phdr.p_type = PT_LOAD) :
    ∃ req : MmapReq,
      mmap_requests (load_phdr env phdr fd w).world.trace = mmap_requests w.trace ++ [req] ∧
      phdr.p_vaddr - req.addr = phdr.p_vaddr % 4096 ∧
      phdr.p_offset - req.offset = phdr.p_offset % 4096 ∧
      req.length = (phdr.p_memsz + (phdr.p_vaddr - req.addr)) % 2 ^ 32 ∧
      (phdr.p_vaddr - req.addr = phdr.p_offset - req.offset ↔
        phdr.p_vaddr % 4096 = phdr.p_offset % 4096) := by
  obtain ⟨_, hoff, hva, _⟩ := hwf
  have ha : (segment_request phdr fd).addr = phdr.p_vaddr - phdr.p_vaddr % 4096 :=
    and_high20 _ hva
  have ho : (segment_request phdr fd).offset = phdr.p_offset - phdr.p_offset % 4096 :=
    and_high20 _ hoff
  have hl : (segment_request phdr fd).length = (phdr.p_memsz + phdr.p_vaddr % 4096) % 2 ^ 32 := by
    show (phdr.p_memsz + (phdr.p_vaddr &&& 0xfff)) % 2 ^ 32 = _
    rw [and_low12]
  have h1 := Nat.mod_le phdr.p_vaddr 4096
  have h2 := Nat.mod_le phdr.p_offset 4096
  have e1 : phdr.p_vaddr - (segment_request phdr fd).addr = phdr.p_vaddr % 4096 := by
    rw [ha]; omega
  have e2 : phdr.p_offset - (segment_request phdr fd).offset = phdr.p_offset % 4096 := by
    rw [ho]; omega
  refine ⟨segment_request phdr fd, load_phdr_requests env phdr fd w hload, e1, e2, ?_, ?_⟩
  · rw [e1, hl]
  · rw [e1, e2]

/-- Witness of C4 (amended): for `seg_data` both remainders are `0x123`, and
the requested length is `0x30 + 0x123`. -/
theorem page_remainders_witness :
    (mmap_requests (load_phdr (env_of file_three fun _ _ => true) seg_data 3
      World.init).world.trace).map
        (fun r => (seg_data.p_vaddr - r.addr, seg_data.p_offset - r.offset, r.length)) =
      [(0x123, 0x123, 0x30 + 0x123)] := by
  obtain ⟨req, h1, h2, h3, h4, _⟩ :=
    page_remainders (env_of file_three fun _ _ => true) seg_data 3 World.init
      (by decide) (by decide)
  rw [h1]
  show [(seg_data.p_vaddr - req.addr, seg_data.p_offset - req.offset, req.length)] = _
  rw [h4, h2, h3]
  decide

/-- C7: on an image whose header passes validation and whose segment table
lies inside the buffer, `foreach_phdr` calls the visitor once on each of the
`e_phnum` descriptors of the table, in ascending order, the `i`-th call
receiving the descriptor stored at byte offset `e_phoff + i * 32` and every
call the same auxiliary argument, and, when every call returns, it returns 0.
This is for a buffer that the memory shows at `addr` and a visitor that, on the
descriptors of the table, leaves the memory of the buffer alone: then the
memory still shows the buffer when the walk ends, so the header and the
descriptors read through the pointer during the walk are those of the buffer.
On an image that fails validation it calls no visitor, prints the error line
and returns -1. -/
theorem foreach_phdr_walk (img : Image) (hdr : Elf32_Ehdr) (hh : read_ehdr img = some hdr) :
    (validate_elf32 hdr ≠ 0 → hdr.e_phoff + hdr.e_phnum * 32 ≤ img.size →
      ∃ descs : List Elf32_Phdr,
        descs.length = hdr.e_phnum ∧
        (∀ i, i < hdr.e_phnum → read_phdr img (hdr.e_phoff + i * 32) = descs[i]?) ∧
        ∀ (func : Elf32_Phdr → Int → M Unit) (arg : Int) (addr : Nat) (w : World),
          Shows w.mem addr img →
          (∀ p, p ∈ descs → Keeps addr (addr + img.size) (func p arg)) →
          foreach_phdr img func arg w = (visit_each func arg descs >>= fun _ => pure 0) w ∧
          Shows (foreach_phdr img func arg w).world.mem addr img ∧
          ((∀ p w1, (func p arg w1).is_ok = true) →
            ∃ w2, foreach_phdr img func arg w = .ok 0 w2)) ∧
    (validate_elf32 hdr = 0 →
      ∀ (func : Elf32_Phdr → Int → M Unit) (arg : Int) (w : World),
        foreach_phdr img func arg w =
          .ok (-1) { w with trace := w.trace ++ [.printf "Error: Invalid ELF32 file\n" []] }) := by
  refine ⟨fun hv hb => ?_, fun hv func arg w => foreach_phdr_invalid img hdr hh hv func arg w⟩
  refine ⟨(List.range' 0 hdr.e_phnum).map fun k => phdr_at img (hdr.e_phoff + 32 * k), ?_, ?_, ?_⟩
  · simp
  · intro i hi
    have hin : hdr.e_phoff + i * 32 + 32 ≤ img.size := by omega
    rw [read_phdr_inside img _ hin]
    simp [List.getElem?_map, List.getElem?_range', hi, Nat.mul_comm]
  · intro func arg addr w hshows hkeep
    have hloop := foreach_phdr_loop_eq_visit img hdr.e_phoff func arg hdr.e_phnum 0 (by omega)
    have heq : foreach_phdr img func arg w =
        (visit_each func arg
          ((List.range' 0 hdr.e_phnum).map fun k => phdr_at img (hdr.e_phoff + 32 * k)) >>=
            fun _ => pure 0) w := by
      rw [foreach_phdr_valid img hdr hh hv, hloop]
    refine ⟨heq, ?_, fun hf => ?_⟩
    · rw [heq]
      have hk : Keeps addr (addr + img.size)
          (visit_each func arg
            ((List.range' 0 hdr.e_phnum).map fun k => phdr_at img (hdr.e_phoff + 32 * k)) >>=
              fun _ => (pure 0 : M Int)) :=
        keeps_bind _ _ _ _ (keeps_visit_each _ _ func arg _ hkeep) fun _ => keeps_pure _ _ _
      exact shows_of_same w.mem _ addr img hshows fun a h1 h2 => hk w a h1 h2
    · rw [heq]
      obtain ⟨v, hv2⟩ := Result.eq_ok_of_is_ok _ (visit_each_ok func arg hf
        ((List.range' 0 hdr.e_phnum).map fun k => phdr_at img (hdr.e_phoff + 32 * k)) w)
      refine ⟨(visit_each func arg
        ((List.range' 0 hdr.e_phnum).map fun k => phdr_at img (hdr.e_phoff + 32 * k)) w).world, ?_⟩
      show M.bind _ _ w = _
      unfold M.bind
      rw [hv2]
      rfl

/-- Witness of C7: the memory shows `file_three` at `0xf7ff0000` and no segment
of its table lies there; with the mapping visitor the table is walked as
`[seg_note, seg_data, seg_text]`.  On `file_corrupt` only the error line is
printed and -1 is returned. -/
theorem foreach_phdr_walk_witness :
    foreach_phdr (image_of file_three) (load_phdr (env_of file_three fun _ _ => true)) 3
        (world_showing 0xf7ff0000 file_three) =
      (visit_each (load_phdr (env_of file_three fun _ _ => true)) 3
        [seg_note, seg_data, seg_text] >>= fun _ => pure 0)
        (world_showing 0xf7ff0000 file_three) ∧
    foreach_phdr (image_of file_corrupt) print_phdr_detailed 3 World.init =
      .ok (-1) { World.init with trace := [.printf "Error: Invalid ELF32 file\n" []] } := by
  have hv : validate_elf32 (ehdr_at (image_of file_three)) ≠ 0 := by decide!
  have hb : (ehdr_at (image_of file_three)).e_phoff + (ehdr_at (image_of file_three)).e_phnum * 32
      ≤ (image_of file_three).size := by decide!
  obtain ⟨descs, hlen, hget, hwalk⟩ :=
    (foreach_phdr_walk (image_of file_three) _
      (read_ehdr_inside (image_of file_three) (by decide!))).1 hv hb
  have hn : (ehdr_at (image_of file_three)).e_phnum = 3 := by decide!
  have hoff : (ehdr_at (image_of file_three)).e_phoff = 52 := by decide!
  rw [hn] at hlen hget
  rw [hoff] at hget
  have h0 := hget 0 (by decide)
  have h1 := hget 1 (by decide)
  have h2 := hget 2 (by decide)
  have r0 : read_phdr (image_of file_three) (52 + 0 * 32) = some seg_note := by decide!
  have r1 : read_phdr (image_of file_three) (52 + 1 * 32) = some seg_data := by decide!
  have r2 : read_phdr (image_of file_three) (52 + 2 * 32) = some seg_text := by decide!
  rw [r0] at h0
  rw [r1] at h1
  rw [r2] at h2
  have hd : descs = [seg_note, seg_data, seg_text] := by
    match descs, hlen, h0, h1, h2 with
    | [a, b, c], _, h0, h1, h2 =>
      simp only [List.getElem?_cons_zero, List.getElem?_cons_succ, Option.some.injEq] at h0 h1 h2
      rw [← h0, ← h1, ← h2]
  subst hd
  have hshows : Shows (world_showing 0xf7ff0000 file_three).mem 0xf7ff0000
      (image_of file_three) := by decide!
  have hkeep : ∀ p, p ∈ [seg_note, seg_data, seg_text] →
      Keeps 0xf7ff0000 (0xf7ff0000 + (image_of file_three).size)
        (load_phdr (env_of file_three fun _ _ => true) p 3) := by
    intro p hp
    apply keeps_load_phdr
    simp only [List.mem_cons, List.mem_singleton, List.not_mem_nil, or_false] at hp
    rcases hp with rfl | rfl | rfl <;> decide!
  refine ⟨(hwalk _ 3 0xf7ff0000 _ hshows hkeep).1, ?_⟩
  exact (foreach_phdr_walk (image_of file_corrupt) _
    (read_ehdr_inside (image_of file_corrupt) (by decide!))).2 (by decide!)
    print_phdr_detailed 3 World.init

/-- C8: when, during the mapping walk of `main`, the `mmap` request for the
loadable descriptor at index `i` is refused, the walk and `main` end right
there through `exit(1)`: after the refused request the trace holds only the
diagnostic and the exit.  So the `mmap` requests of the whole run are the
metadata request and those of the loadable descriptors at indices `0 .. i` (none
for a later descriptor), no `memset` is called for descriptor `i`, and the stub
is never invoked.  This is for a run in which the metadata mapping lies in the
32-bit address space and no descriptor before `i` has its mapping or its
zero-fill on the metadata mapping: then the memory still shows the metadata
buffer whenever a descriptor up to `i` is reached, so the header and the
descriptors read through the pointer up to there are those of the buffer. -/
theorem refused_mapping_is_fatal (env : Env) (argv : List String) (hdr : Elf32_Ehdr)
    (i : Nat) (phdr : Elf32_Phdr)
    (hargc : 2 ≤ argv.length) (hopen : main_fd env argv ≠ -1)
    (hsize : env.lseek (main_fd env argv) 0 SEEK_END ≠ -1)
    (hmap : main_elf_data env argv ≠ MAP_FAILED)
    (hhdr : read_ehdr (main_image env argv) = some hdr)
    (hvalid : validate_elf32 hdr ≠ 0)
    (htable : hdr.e_phoff + hdr.e_phnum * 32 ≤ (main_image env argv).size)
    (hspace : main_elf_data env argv + (main_image env argv).size ≤ 2 ^ 32)
    (hi : i < hdr.e_phnum)
    (hclear : ∀ j, j < i →
      avoids (phdr_at (main_image env argv) (hdr.e_phoff + 32 * j))
        (main_elf_data env argv) (main_elf_data env argv + (main_image env argv).size))
    (hd : read_phdr (main_image env argv) (hdr.e_phoff + i * 32) = some phdr)
    (hload : phdr.p_type = PT_LOAD)
    (hpre : (mapping_walk_before env argv hdr i).is_ok = true)
    (hk : env.mmap_fixed ((mapping_walk_before env argv hdr i).world.trace ++ [loading_line phdr])
      (segment_request phdr (main_fd env argv)) = false) :
    mapping_result env argv hdr =
      .exit 1 (refused_world phdr (main_fd env argv) (mapping_walk_before env argv hdr i).world) ∧
    main env argv World.init =
      .exit 1 (refused_world phdr (main_fd env argv) (mapping_walk_before env argv hdr i).world) ∧
    (main env argv World.init).exit_status = some 1 ∧
    mmap_requests (main env argv World.init).world.trace =
      main_request env argv ::
        ((((List.range (i + 1)).map fun k => phdr_at (main_image env argv) (hdr.e_phoff + 32 * k)).filter
          fun p => decide (p.p_type = PT_LOAD)).map fun p => segment_request p (main_fd env argv)) ∧
    memset_calls (main env argv World.init).world.trace =
      memset_calls (mapping_walk_before env argv hdr i).world.trace ∧
    startup_calls (main env argv World.init).world.trace = [] ∧
    (∀ j, j ≤ i →
      Shows (mapping_walk_before env argv hdr j).world.mem (main_elf_data env argv)
        (main_image env argv)) := by
  obtain ⟨_, _, hreq0, _, hst0⟩ := mapping_world_facts env argv hdr
  obtain ⟨v, hv⟩ := Result.eq_ok_of_is_ok _ hpre
  have hin : hdr.e_phoff + i * 32 + 32 ≤ (main_image env argv).size := by omega
  have hph : phdr = phdr_at (main_image env argv) (hdr.e_phoff + 32 * i) := by
    rw [read_phdr_inside _ _ hin] at hd
    rw [Nat.mul_comm 32 i]
    exact (Option.some.inj hd).symm
  -- the walk ends at descriptor `i`
  have hwalk : mapping_result env argv hdr =
      .exit 1 (refused_world phdr (main_fd env argv)
        (mapping_walk_before env argv hdr i).world) := by
    have hn : hdr.e_phnum = i + ((hdr.e_phnum - i - 1) + 1) := by omega
    unfold mapping_result
    rw [foreach_phdr_valid _ hdr hhdr hvalid]
    simp only [run_bind, M.bind]
    rw [hn, loop_split]
    unfold M.bind
    have hv2 : foreach_phdr_loop (main_image env argv) hdr.e_phoff (load_phdr env)
        (main_fd env argv) i 0 (mapping_start env argv hdr) =
        .ok v (mapping_walk_before env argv hdr i).world := hv
    rw [hv2]
    simp only [foreach_phdr_loop, Nat.zero_add]
    have hd2 : read_phdr (main_image env argv) (hdr.e_phoff + PHDR_SIZE * i) = some phdr := by
      rw [← hd]
      show read_phdr _ (hdr.e_phoff + 32 * i) = _
      rw [Nat.mul_comm]
    rw [hd2]
    simp only [run_bind, M.bind]
    rw [load_phdr_refused env phdr _ _ hload hk]
    rfl
  -- the reporting walk returns, so `main` reaches the mapping walk
  have hrep : (report_result env argv hdr).is_ok = true := by
    unfold report_result
    rw [foreach_phdr_valid _ hdr hhdr hvalid,
      foreach_phdr_loop_eq_visit _ _ _ _ _ 0 (by omega)]
    obtain ⟨u, hu⟩ := Result.eq_ok_of_is_ok _ (visit_each_ok print_phdr_detailed (main_fd env argv)
      (fun p w => returns_print_phdr_detailed p _ w)
      ((List.range' 0 hdr.e_phnum).map fun k => phdr_at (main_image env argv) (hdr.e_phoff + 32 * k))
      (report_start env argv hdr))
    simp only [run_bind, M.bind]
    rw [hu]
    rfl
  have hmain : main env argv World.init =
      .exit 1 (refused_world phdr (main_fd env argv)
        (mapping_walk_before env argv hdr i).world) := by
    rw [main_reaches_mapping env argv hdr hargc hopen hsize hmap hhdr hrep]
    unfold M.bind
    simp only
    rw [hwalk]
  -- the requests of the descriptors before `i`
  have hvis : mapping_walk_before env argv hdr i =
      visit_each (load_phdr env) (main_fd env argv)
        ((List.range' 0 i).map fun k => phdr_at (main_image env argv) (hdr.e_phoff + 32 * k))
        (mapping_start env argv hdr) := by
    unfold mapping_walk_before
    rw [foreach_phdr_loop_eq_visit _ _ _ _ _ 0 (by omega)]
  have hreqs := visit_requests env (main_fd env argv)
    ((List.range' 0 i).map fun k => phdr_at (main_image env argv) (hdr.e_phoff + 32 * k))
    (mapping_start env argv hdr) (by rw [← hvis]; exact hpre)
  rw [← hvis, hreq0] at hreqs
  obtain ⟨l, t1, t2, _⟩ := extends_loop Event.not_startup (main_image env argv) hdr.e_phoff
    (load_phdr env) (main_fd env argv) (fun p => extends_load_phdr env p _) i 0
    (mapping_start env argv hdr)
  have t1b : (mapping_walk_before env argv hdr i).world.trace =
      (mapping_start env argv hdr).trace ++ l := t1
  -- the metadata mapping is intact when each descriptor up to `i` is reached
  have hshows : ∀ j, j ≤ i →
      Shows (mapping_walk_before env argv hdr j).world.mem (main_elf_data env argv)
        (main_image env argv) := by
    intro j hj
    have h0 := shows_report_start env argv hdr hspace
    have hrepk := keeps_foreach_phdr (main_elf_data env argv)
      (main_elf_data env argv + (main_image env argv).size) (main_image env argv)
      print_phdr_detailed (main_fd env argv)
      (fun p => keeps_print_phdr_detailed _ _ p _) (report_start env argv hdr)
    have h1 : Shows (mapping_start env argv hdr).mem (main_elf_data env argv)
        (main_image env argv) :=
      shows_of_same _ _ _ _ h0 fun a ha hb => hrepk a ha hb
    have hvk := keeps_visit_each (main_elf_data env argv)
      (main_elf_data env argv + (main_image env argv).size) (load_phdr env) (main_fd env argv)
      ((List.range' 0 j).map fun k => phdr_at (main_image env argv) (hdr.e_phoff + 32 * k))
      (by
        intro p hp
        obtain ⟨k, hk1, hk2⟩ := List.mem_map.mp hp
        rw [← hk2]
        exact keeps_load_phdr env _ _ _ _
          (hclear k (by have := (List.mem_range'_1.mp hk1).2; omega)))
      (mapping_start env argv hdr)
    have hvisj : mapping_walk_before env argv hdr j =
        visit_each (load_phdr env) (main_fd env argv)
          ((List.range' 0 j).map fun k => phdr_at (main_image env argv) (hdr.e_phoff + 32 * k))
          (mapping_start env argv hdr) := by
      unfold mapping_walk_before
      rw [foreach_phdr_loop_eq_visit _ _ _ _ _ 0 (by omega)]
    rw [hvisj]
    exact shows_of_same _ _ _ _ h1 fun a ha hb => hvk a ha hb
  refine ⟨hwalk, hmain, by rw [hmain]; rfl, ?_, ?_, ?_, hshows⟩
  · rw [hmain]
    show mmap_requests ((mapping_walk_before env argv hdr i).world.trace ++ _) = _
    rw [mmap_requests_append, hreqs, ← List.range_eq_range', List.range_succ]
    simp [mmap_requests, loading_line, ← hph, hload]
  · rw [hmain]
    show memset_calls ((mapping_walk_before env argv hdr i).world.trace ++ _) = _
    rw [memset_calls_append]
    simp [memset_calls, loading_line]
  · rw [hmain]
    show startup_calls ((mapping_walk_before env argv hdr i).world.trace ++ _) = _
    rw [startup_calls_append, t1b, startup_calls_append, hst0, startup_calls_eq_nil l t2]
    simp [startup_calls, loading_line]

/-- Witness of C8: on `file_four`, mapped at `0xf7ff0000` and met by none of
its segments, the kernel refuses the mapping of the second descriptor
(`seg_text`); the run exits with status 1, having requested the metadata
mapping, the mapping of the first descriptor and the refused one, and nothing
for the loadable fourth descriptor. -/
theorem refused_mapping_is_fatal_witness :
    (main (env_of file_four refuse_text) ["loader", "prog"] World.init).exit_status = some 1 ∧
    mmap_requests (main (env_of file_four refuse_text) ["loader", "prog"] World.init).world.trace =
      [main_request (env_of file_four refuse_text) ["loader", "prog"],
       segment_request seg_data 3, segment_request seg_text 3] ∧
    startup_calls (main (env_of file_four refuse_text) ["loader", "prog"] World.init).world.trace
      = [] := by
  have h := refused_mapping_is_fatal (env_of file_four refuse_text) ["loader", "prog"]
    (ehdr_at (main_image (env_of file_four refuse_text) ["loader", "prog"])) 1 seg_text
    (by decide) (by decide) (by decide!) (by decide!)
    (read_ehdr_inside _ (by decide!)) (by decide!) (by decide!) (by decide!) (by decide!)
    (by intro j hj; interval_cases j; decide!)
    (by decide!) (by decide) (by decide!) (by decide!)
  refine ⟨h.2.2.1, ?_, h.2.2.2.2.2.1⟩
  rw [h.2.2.2.1]
  decide!

/-- C1, at a failing input: on `file_corrupt`, whose magic is damaged, `main`
prints the invalid-format line and issues no segment-mapping request (its only
`mmap` request is the metadata mapping), but it does not stop: it goes on to
invoke the stub with the entry address read from the rejected header, and the
run ends inside the loaded image, not with exit status 1. -/
theorem corrupt_image_reaches_stub :
    validate_elf32 (ehdr_at (main_image (env_of file_corrupt fun _ _ => true)
      ["loader", "prog"])) = 0 ∧
    Event.printf "Error: Invalid ELF32 file\n" [] ∈
      (main (env_of file_corrupt fun _ _ => true) ["loader", "prog"] World.init).world.trace ∧
    mmap_requests
      (main (env_of file_corrupt fun _ _ => true) ["loader", "prog"] World.init).world.trace =
      [main_request (env_of file_corrupt fun _ _ => true) ["loader", "prog"]] ∧
    startup_calls
      (main (env_of file_corrupt fun _ _ => true) ["loader", "prog"] World.init).world.trace =
      [(1, ["prog"], 0x10000)] ∧
    (main (env_of file_corrupt fun _ _ => true) ["loader", "prog"] World.init).exit_status
      = none := by
  decide!

/-- C3, at a failing input: for `seg_text` (readable and executable, not
writable, `0x100` bytes in the file and `0x200` in memory) the mapping is
granted, then the zero-fill stores into pages mapped without `PROT_WRITE`:
`load_phdr` ends in an invalid memory access, and the byte at
`p_vaddr + p_filesz` still holds the byte `0xAA` of the file, not zero; so
does the run of `main` on `file_text`.  (For the writable `seg_data` the same
call returns and the first byte of the gap reads zero.) -/
theorem zero_fill_faults_on_read_only_segment :
    seg_text.p_type = PT_LOAD ∧ seg_text.p_memsz > seg_text.p_filesz ∧
    (load_phdr (env_of file_text fun _ _ => true) seg_text 3 World.init).world.trace =
      [loading_line seg_text, .mmap (segment_request seg_text 3) 0x10000, mapped_line 0x10000,
       .memset 0x10100 0 0x100] ∧
    (load_phdr (env_of file_text fun _ _ => true) seg_text 3 World.init).is_fault = true ∧
    (load_phdr (env_of file_text fun _ _ => true) seg_text 3 World.init).world.mem
      (seg_text.p_vaddr + seg_text.p_filesz) = some { prot := PROT_READ ||| PROT_EXEC, val := 0xAA } ∧
    (main (env_of file_text fun _ _ => true) ["loader", "prog"] World.init).is_fault = true ∧
    (load_phdr (env_of file_two fun _ _ => true) seg_data 3 World.init).is_ok = true ∧
    (load_phdr (env_of file_two fun _ _ => true) seg_data 3 World.init).world.mem
      (seg_data.p_vaddr + seg_data.p_filesz) = some { prot := PROT_READ ||| PROT_WRITE, val := 0 } := by
  decide!

end Loader
